import Mathlib

/-!
Verification of the multi-ticker options backtesting engine
(`scripts/strategies/backtester_multi.py` and its collaborators
`iron_condor.py`, `filters.py`, `adaptive_config.py`,
`scripts/quantitative/black_scholes.py`, `utils.py`).

Monetary quantities, strikes, deltas and scores are embedded as `Rat`
(the Python code uses floats; all the operations the claims depend on
are exact arithmetic, comparisons, medians and sorting).  Dates are
embedded as `Int` day numbers; `pandas` missing values (`NaN`) on the
price columns are embedded as `Option Rat` with `none` for a missing
value, matching the explicit `isna` handling in the source.
The Black-Scholes layer is embedded over `ℝ` with the standard normal
CDF defined by the Gaussian integral.
-/

set_option maxRecDepth 4000

namespace AlgoOptions

/-- Option contract type (`type` column, `'call' | 'put'`). -/
inductive OptType
  | call
  | put
deriving DecidableEq, Repr

/-- Leg side (`position` key of a leg dict, `'short' | 'long'`). -/
inductive Side
  | short
  | long
deriving DecidableEq, Repr

/-- One row of a per-ticker option-chain table, with the columns the
backtester requires (`load_ticker_data` validates `date, type, strike,
expiration, dte, delta, gamma, theta, vega, iv, close, volume, oi`).
`close`/`vwap` may be `NaN` in the data, hence `Option Rat`.
`ivRank` is the `iv_rank` column that `IronCondor.scan` overwrites with
the market-wide value before filtering. -/
structure OptionRow where
  date : Int
  expiration : Int
  optType : OptType
  strike : Rat
  dte : Int
  delta : Rat
  iv : Option Rat
  ivRank : Rat
  close : Option Rat
  vwap : Option Rat
  volume : Rat
  oi : Rat
deriving DecidableEq, Repr

/-! ## Sorting and median helpers (embedding `pandas` `median`, `nsmallest`) -/

/-- Insert into an ascending-sorted list of rationals. -/
def insertAsc (x : Rat) : List Rat → List Rat
  | [] => [x]
  | y :: ys => if x ≤ y then x :: y :: ys else y :: insertAsc x ys

/-- Ascending insertion sort on rationals. -/
def sortAsc : List Rat → List Rat
  | [] => []
  | x :: xs => insertAsc x (sortAsc xs)

/-- `pandas` `Series.median`: middle element of the sorted values for an
odd count, mean of the two middle elements for an even count. -/
def medianQ (l : List Rat) : Rat :=
  let s := sortAsc l
  let n := s.length
  if n = 0 then 0
  else if n % 2 = 1 then s.getD (n / 2) 0
  else (s.getD (n / 2 - 1) 0 + s.getD (n / 2) 0) / 2

/-- Helper for `argminFirst`: carry the best element seen so far,
replacing it only on a strictly smaller key (ties keep the earlier
element, matching `nsmallest(..., keep='first')`). -/
def argminFirstAux {α : Type} (f : α → Rat) (best : α) : List α → α
  | [] => best
  | x :: xs => argminFirstAux f (if f x < f best then x else best) xs

/-- First element of the list attaining the minimal key, as
`DataFrame.nsmallest(1, col)` selects it. -/
def argminFirst {α : Type} (f : α → Rat) : List α → Option α
  | [] => none
  | x :: xs => some (argminFirstAux f x xs)

/-! ## Market data access (`MarketDataLoader`) -/

/-- `MarketDataLoader._estimate_underlying_price`: on the rows for one
query, restrict to calls (returning `None` when there are none), take
the median strike of the calls with delta in `[0.45, 0.55]`, and
otherwise the strike of the call whose delta is closest to `0.5`. -/
def estimateUnderlyingPrice (options : List OptionRow) : Option Rat :=
  if options = [] then none
  else
    let calls := options.filter (fun r => decide (r.optType = OptType.call))
    if calls = [] then none
    else
      let atmCalls := calls.filter
        (fun r => decide (45/100 ≤ r.delta) && decide (r.delta ≤ 55/100))
      if atmCalls ≠ [] then some (medianQ (atmCalls.map (·.strike)))
      else
        match argminFirst (fun r => |r.delta - 1/2|) calls with
        | some r => some r.strike
        | none => none

/-- `MarketDataLoader.get_underlying_price`: restrict the ticker's rows
to the query date; `None` when no rows exist, otherwise estimate from
the day's rows. -/
def getUnderlyingPrice (data : List OptionRow) (date : Int) : Option Rat :=
  let dayData := data.filter (fun r => decide (r.date = date))
  if dayData = [] then none else estimateUnderlyingPrice dayData

/-! ### Facts about `argminFirst` -/

theorem argminFirstAux_mem {α : Type} (f : α → Rat) (best : α) (l : List α) :
    argminFirstAux f best l = best ∨ argminFirstAux f best l ∈ l := by
  induction l generalizing best with
  | nil => left; rfl
  | cons x xs ih =>
    simp only [argminFirstAux]
    rcases ih (if f x < f best then x else best) with h | h
    · rw [h]
      split_ifs with hlt
      · right; exact List.mem_cons_self _ _
      · left; rfl
    · right; exact List.mem_cons_of_mem _ h

theorem argminFirstAux_le_best {α : Type} (f : α → Rat) (best : α) (l : List α) :
    f (argminFirstAux f best l) ≤ f best := by
  induction l generalizing best with
  | nil => simp [argminFirstAux]
  | cons x xs ih =>
    simp only [argminFirstAux]
    refine le_trans (ih _) ?_
    split_ifs with hlt
    · exact le_of_lt hlt
    · exact le_refl _

theorem argminFirstAux_le_mem {α : Type} (f : α → Rat) (best : α) (l : List α) :
    ∀ y ∈ l, f (argminFirstAux f best l) ≤ f y := by
  induction l generalizing best with
  | nil => intro y hy; cases hy
  | cons x xs ih =>
    intro y hy
    simp only [argminFirstAux]
    rcases List.mem_cons.mp hy with rfl | hy
    · refine le_trans (argminFirstAux_le_best _ _ _) ?_
      split_ifs with hlt
      · exact le_refl _
      · exact le_of_not_lt hlt
    · exact ih _ y hy

theorem argminFirst_spec {α : Type} (f : α → Rat) (l : List α) (m : α)
    (h : argminFirst f l = some m) : m ∈ l ∧ ∀ y ∈ l, f m ≤ f y := by
  cases l with
  | nil => cases h
  | cons x xs =>
    simp only [argminFirst, Option.some.injEq] at h
    subst h
    constructor
    · rcases argminFirstAux_mem f x xs with h | h
      · rw [h]; exact List.mem_cons_self _ _
      · exact List.mem_cons_of_mem _ h
    · intro y hy
      rcases List.mem_cons.mp hy with rfl | hy
      · exact argminFirstAux_le_best _ _ _
      · exact argminFirstAux_le_mem _ _ _ y hy

/-- The underlying-price estimate is `none` exactly when the query has
no call rows (in particular it is `none` on data that has rows but only
puts: there is no put fallback in the source). -/
theorem estimateUnderlyingPrice_eq_none_iff (options : List OptionRow) :
    estimateUnderlyingPrice options = none ↔
      options.filter (fun r => decide (r.optType = OptType.call)) = [] := by
  unfold estimateUnderlyingPrice
  by_cases h0 : options = []
  · subst h0; simp
  · simp only [h0, if_false]
    by_cases hc : options.filter (fun r => decide (r.optType = OptType.call)) = []
    · simp [hc]
    · simp only [hc, if_false, iff_false]
      by_cases ha : (options.filter (fun r => decide (r.optType = OptType.call))).filter
          (fun r => decide (45/100 ≤ r.delta) && decide (r.delta ≤ 55/100)) = []
      · simp only [ha, ne_eq, not_true_eq_false, if_false]
        cases hm : argminFirst (fun r => |r.delta - 1/2|)
            (options.filter (fun r => decide (r.optType = OptType.call))) with
        | none =>
          cases hflt : options.filter (fun r => decide (r.optType = OptType.call)) with
          | nil => exact absurd hflt hc
          | cons x xs => rw [hflt] at hm; cases hm
        | some r => simp
      · rw [if_pos ha]
        simp

/-- C5 (counterexample): the claim says the estimate falls back to puts
when no calls exist and is `None` only when no rows exist for the
query.  On a date with exactly one row, a put, `get_underlying_price`
returns `None` even though a row exists: `_estimate_underlying_price`
returns `None` as soon as there are no call rows, with no put fallback
and no all-strikes-median fallback. -/
theorem C5_underlying_price_counterexample :
    getUnderlyingPrice
        [⟨0, 40, OptType.put, 100, 40, -(1/2), none, 70, some 2, none, 100, 200⟩] 0 = none ∧
      List.filter (fun r => decide (r.date = (0 : Int)))
        [(⟨0, 40, OptType.put, 100, 40, -(1/2), none, 70, some 2, none, 100, 200⟩ :
          OptionRow)] ≠ [] := by
  constructor
  · simp [getUnderlyingPrice, estimateUnderlyingPrice, List.filter]
  · simp [List.filter]

/-- C5 (amended): for a query with at least one option row, the
underlying-price estimate considers calls only (there is no put
fallback): it is `None` exactly when the query has no call rows; when
some call has delta in `[0.45, 0.55]` it is the median strike of those
near-ATM calls; and otherwise it is the strike of the (first) call
whose delta is closest to `0.5` — not the median of all available
strikes. -/
theorem C5_underlying_price_estimate (options : List OptionRow) :
    (estimateUnderlyingPrice options = none ↔
      options.filter (fun r => decide (r.optType = OptType.call)) = []) ∧
    (∀ calls atm,
      calls = options.filter (fun r => decide (r.optType = OptType.call)) →
      atm = calls.filter
        (fun r => decide (45/100 ≤ r.delta) && decide (r.delta ≤ 55/100)) →
      (atm ≠ [] →
        estimateUnderlyingPrice options = some (medianQ (atm.map (·.strike)))) ∧
      (calls ≠ [] → atm = [] →
        ∃ r ∈ calls, estimateUnderlyingPrice options = some r.strike ∧
          ∀ y ∈ calls, |r.delta - 1/2| ≤ |y.delta - 1/2|)) := by
  refine ⟨estimateUnderlyingPrice_eq_none_iff options, ?_⟩
  intro calls atm hcalls hatm
  subst hatm
  subst hcalls
  constructor
  · intro hne
    have hc : options.filter (fun r => decide (r.optType = OptType.call)) ≠ [] := by
      intro h; rw [h] at hne; exact hne rfl
    have h0 : options ≠ [] := by
      intro h; subst h; exact hc rfl
    unfold estimateUnderlyingPrice
    rw [if_neg h0, if_neg hc, if_pos hne]
  · intro hc hempty
    have h0 : options ≠ [] := by
      intro h; subst h; exact hc rfl
    unfold estimateUnderlyingPrice
    rw [if_neg h0, if_neg hc, if_neg (by simp [hempty])]
    cases hm : argminFirst (fun r => |r.delta - 1/2|)
        (options.filter (fun r => decide (r.optType = OptType.call))) with
    | none =>
      exfalso
      cases hflt : options.filter (fun r => decide (r.optType = OptType.call)) with
      | nil => exact hc hflt
      | cons x xs => rw [hflt] at hm; cases hm
    | some m =>
      obtain ⟨hmem, hmin⟩ := argminFirst_spec _ _ _ hm
      exact ⟨m, hmem, rfl, fun y hy => hmin y hy⟩

/-- C5 (witness): the amended estimate theorem applied to a concrete
one-call chain, whose single call is near-ATM: the estimate is the
median of the near-ATM strikes. -/
theorem C5_underlying_price_witness :
    estimateUnderlyingPrice
        [⟨0, 40, OptType.call, 100, 40, 1/2, none, 70, some 2, none, 100, 200⟩] =
      some (medianQ (List.map (fun r : OptionRow => r.strike)
        (List.filter
          (fun r => decide (45/100 ≤ r.delta) && decide (r.delta ≤ 55/100))
          (List.filter (fun r => decide (r.optType = OptType.call))
            [⟨0, 40, OptType.call, 100, 40, 1/2, none, 70, some 2, none, 100, 200⟩])))) :=
  (((C5_underlying_price_estimate _).2 _ _ rfl rfl)).1
    (by norm_num [List.filter])

/-! ## Adaptive per-ticker risk parameters (`adaptive_config.py`) -/

/-- `AssetType` enum. -/
inductive AssetType
  | etf
  | tech
  | commodity
deriving DecidableEq, Repr

/-- `VolatilityCategory` enum. -/
inductive VolCategory
  | high
  | medium
  | low
deriving DecidableEq, Repr

/-- `TickerParameters` dataclass. -/
structure TickerParameters where
  ticker : String
  assetType : AssetType
  volatilityCategory : VolCategory
  profitTargetPct : Rat
  stopLossPct : Rat
  dteMin : Int
  dteMax : Int
  reasoning : String
deriving DecidableEq, Repr

/-- `VOLATILITY_CONFIGS[...]['profit_target_pct']`. -/
def volatilityProfitTarget : VolCategory → Rat
  | .high => 25
  | .medium => 35
  | .low => 50

/-- `VOLATILITY_CONFIGS[...]['stop_loss_pct']`. -/
def volatilityStopLoss : VolCategory → Rat
  | .high => 200
  | .medium => 150
  | .low => 100

/-- `VOLATILITY_CONFIGS[...]['reasoning']`. -/
def volatilityReasoning : VolCategory → String
  | .high => "Alta volatilidad → cerrar rápido para capturar theta, stop loss amplio anti-whipsaw"
  | .medium => "Volatilidad media → balance entre theta y protección"
  | .low => "Baja volatilidad → permitir mayor decay de theta, stop loss ajustado"

/-- `DTE_CONFIGS[...]['dte_min']`. -/
def assetDteMin : AssetType → Int
  | .etf => 49
  | .tech => 42
  | .commodity => 56

/-- `DTE_CONFIGS[...]['dte_max']`. -/
def assetDteMax : AssetType → Int
  | .etf => 56
  | .tech => 49
  | .commodity => 60

/-- `DTE_CONFIGS[...]['reasoning']`. -/
def assetDteReasoning : AssetType → String
  | .etf => "ETF → Long DTE (49-56) para estabilidad y aprovechar theta decay gradual"
  | .tech => "Tech → Medium-Long DTE (42-49) para capturar ciclos de volatilidad"
  | .commodity => "Commodity → Extra Long DTE (56-60) para aprovechar tendencias largas"

/-- `TICKER_CLASSIFICATIONS` dict (membership test plus lookup). -/
def tickerClassification (t : String) : Option (AssetType × VolCategory) :=
  if t = "SPY" then some (.etf, .medium)
  else if t = "QQQ" then some (.etf, .medium)
  else if t = "IWM" then some (.etf, .high)
  else if t = "AAPL" then some (.tech, .high)
  else if t = "MSFT" then some (.tech, .high)
  else if t = "AMZN" then some (.tech, .high)
  else if t = "NVDA" then some (.tech, .high)
  else if t = "TSLA" then some (.tech, .high)
  else if t = "GLD" then some (.commodity, .high)
  else if t = "SLV" then some (.commodity, .high)
  else none

/-- One entry of `TICKER_OVERRIDES`: each key is optional. -/
structure OverrideEntry where
  profitTargetPct : Option Rat
  stopLossPct : Option Rat
  reasoningOverride : Option String
deriving DecidableEq, Repr

/-- `TICKER_OVERRIDES` dict. -/
def tickerOverride (t : String) : Option OverrideEntry :=
  if t = "TSLA" then
    some ⟨some 20, none,
      some "TSLA → Profit target ultra-agresivo (75% early closures observados)"⟩
  else if t = "QQQ" then
    some ⟨some 30, none, some "QQQ → Ajustado por 71.4% early closure rate"⟩
  else if t = "SPY" then
    some ⟨some 30, none, some "SPY → Ajustado por 71.4% early closure rate"⟩
  else none

/-- `AdaptiveConfigManager._build_config`: classification (with the
unknown-ticker default), volatility-category base parameters, DTE
window from the asset type, then ticker-specific overrides applied
last, each present override key replacing the base value. -/
def buildConfig (ticker : String) : TickerParameters :=
  let classified :=
    match tickerClassification ticker with
    | none => (AssetType.etf, VolCategory.medium,
        ticker ++ " → Ticker desconocido, usando configuración conservadora")
    | some (a, v) => (a, v, "")
  let assetType := classified.1
  let volCategory := classified.2.1
  let profitTarget := volatilityProfitTarget volCategory
  let stopLoss := volatilityStopLoss volCategory
  let reasoning := classified.2.2 ++ volatilityReasoning volCategory ++ " | " ++
    assetDteReasoning assetType
  match tickerOverride ticker with
  | none =>
    ⟨ticker, assetType, volCategory, profitTarget, stopLoss,
      assetDteMin assetType, assetDteMax assetType, reasoning⟩
  | some ov =>
    ⟨ticker, assetType, volCategory,
      ov.profitTargetPct.getD profitTarget,
      ov.stopLossPct.getD stopLoss,
      assetDteMin assetType, assetDteMax assetType,
      match ov.reasoningOverride with
      | some ro => ro ++ " | " ++ reasoning
      | none => reasoning⟩

/-- The manager's `_config_cache` dict, as an association list. -/
def lookupCache (cache : List (String × TickerParameters)) (t : String) :
    Option TickerParameters :=
  (cache.find? (fun p => p.1 == t)).map (fun p => p.2)

/-- `AdaptiveConfigManager.get_config`: serve from the cache, building
(and caching) on a miss. -/
def getConfig (cache : List (String × TickerParameters)) (t : String) :
    TickerParameters × List (String × TickerParameters) :=
  match lookupCache cache t with
  | some p => (p, cache)
  | none => (buildConfig t, cache ++ [(t, buildConfig t)])

theorem lookupCache_append_self (cache : List (String × TickerParameters))
    (t : String) (v : TickerParameters) (h : lookupCache cache t = none) :
    lookupCache (cache ++ [(t, v)]) t = some v := by
  unfold lookupCache at h ⊢
  rw [List.find?_append]
  rw [Option.map_eq_none'] at h
  rw [h]
  simp [List.find?]

theorem tickerOverride_of_unclassified (t : String)
    (h : tickerClassification t = none) : tickerOverride t = none := by
  unfold tickerClassification at h
  unfold tickerOverride
  split_ifs at h ⊢ with h1 h2 h3
  all_goals simp_all

/-- C9: the adaptive parameter lookup is pure: a second `get_config`
call (on the cache state the first call left behind) returns the exact
same parameters; on a cache miss the result is the deterministic
`_build_config` output; an instrument absent from the classification
table gets the (ETF, medium-volatility) base values — profit target
35%, stop loss 150%, DTE window 49–56 — with the unknown-ticker
default-reasoning note; and a ticker-override value replaces the
volatility-category base value outright. -/
theorem C9_adaptive_config_pure (cache : List (String × TickerParameters))
    (t : String) :
    ((getConfig ((getConfig cache t).2) t).1 = (getConfig cache t).1) ∧
    (lookupCache cache t = none → (getConfig cache t).1 = buildConfig t) ∧
    (tickerClassification t = none →
      (buildConfig t).assetType = AssetType.etf ∧
      (buildConfig t).volatilityCategory = VolCategory.medium ∧
      (buildConfig t).profitTargetPct = 35 ∧
      (buildConfig t).stopLossPct = 150 ∧
      (buildConfig t).dteMin = 49 ∧
      (buildConfig t).dteMax = 56 ∧
      (buildConfig t).reasoning =
        t ++ " → Ticker desconocido, usando configuración conservadora" ++
          volatilityReasoning VolCategory.medium ++ " | " ++
          assetDteReasoning AssetType.etf) ∧
    (∀ ov, tickerOverride t = some ov →
      (∀ p, ov.profitTargetPct = some p → (buildConfig t).profitTargetPct = p) ∧
      (∀ s, ov.stopLossPct = some s → (buildConfig t).stopLossPct = s)) := by
  refine ⟨?_, ?_, ?_, ?_⟩
  · cases hl : lookupCache cache t with
    | some p =>
      unfold getConfig
      simp only [hl]
    | none =>
      unfold getConfig
      simp only [hl]
      rw [lookupCache_append_self cache t _ hl]
  · intro hl
    unfold getConfig
    rw [hl]
  · intro hcls
    have hov := tickerOverride_of_unclassified t hcls
    unfold buildConfig
    rw [hcls, hov]
    simp [volatilityProfitTarget, volatilityStopLoss, assetDteMin, assetDteMax]
  · intro ov hov
    constructor
    · intro p hp
      unfold buildConfig
      rw [hov]
      cases hcls : tickerClassification t with
      | none => simp [hp]
      | some c => simp [hp]
    · intro s hs
      unfold buildConfig
      rw [hov]
      cases hcls : tickerClassification t with
      | none => simp [hs]
      | some c => simp [hs]

/-- C9 (witness): the purity theorem applied concretely — an unknown
ticker gets the conservative defaults, and the TSLA profit-target
override (20%) replaces the high-volatility base (25%). -/
theorem C9_adaptive_config_witness :
    (buildConfig "ZZZ").profitTargetPct = 35 ∧
      (buildConfig "TSLA").profitTargetPct = 20 ∧
      (getConfig ((getConfig [] "SPY").2) "SPY").1 = (getConfig [] "SPY").1 := by
  refine ⟨((C9_adaptive_config_pure [] "ZZZ").2.2.1 (by decide)).2.2.1, ?_, ?_⟩
  · exact ((C9_adaptive_config_pure [] "TSLA").2.2.2
      ⟨some 20, none,
        some "TSLA → Profit target ultra-agresivo (75% early closures observados)"⟩
      (by decide)).1 20 rfl
  · exact (C9_adaptive_config_pure [] "SPY").1

/-! ## Positions (`base.Position` plus the fields the multi-ticker
engine sets on it: `ticker`, `status`, `pnl`, `exit_date`,
`exit_value`, `days_held`) -/

/-- One leg dict of a position, with the keys the engine reads
(`type`, `strike`, `position`). -/
structure SimLeg where
  optType : OptType
  strike : Rat
  side : Side
deriving DecidableEq, Repr

/-- Position lifecycle status as the engine writes it (`'open'` at
construction, then one of the five terminal strings). -/
inductive PStatus
  | openPos
  | closedProfit
  | closedLoss
  | closedEnd
  | expiredProfitable
  | expiredLoss
deriving DecidableEq, Repr

/-- A position as the multi-ticker engine tracks it. -/
structure SimPosition where
  ticker : String
  entryDate : Int
  expirationDate : Int
  dteAtEntry : Int
  legs : List SimLeg
  premiumCollected : Rat
  maxRisk : Rat
  profitTarget : Rat
  stopLoss : Rat
  status : PStatus
  pnl : Option Rat
  exitDate : Option Int
  exitValue : Option Rat
  daysHeld : Option Int
deriving DecidableEq, Repr

/-! ## Opportunity scorer (`OpportunityScorer.calculate_quality_score`) -/

/-- The liquidity columns the scorer reads off the opportunity row via
`getattr(opportunity, f"..._volume", 100)`; `none` embeds an absent
attribute, for which the default `100` is used. -/
structure OppLiquidity where
  volumeOf : OptType → Option Rat
  oiOf : OptType → Option Rat

/-- Step 1 of the scorer: `ror = premium_collected / abs(max_risk) * 100`. -/
def rorOf (pos : SimPosition) : Rat :=
  pos.premiumCollected / |pos.maxRisk| * 100

/-- `ror_score = min(ror / 400.0, 1.0) * 0.45`. -/
def rorScoreOf (pos : SimPosition) : Rat :=
  min (rorOf pos / 400) 1 * (45/100)

/-- Step 2 of the scorer: the windowed DTE bonus schedule. -/
def dteScoreOf (dte : Int) : Rat :=
  if 42 ≤ dte ∧ dte ≤ 56 then 20/100
  else if (36 ≤ dte ∧ dte < 42) ∨ (56 < dte ∧ dte ≤ 60) then 17/100
  else if 30 ≤ dte ∧ dte < 36 then 12/100
  else if 22 ≤ dte ∧ dte < 30 then 8/100
  else 4/100

/-- `getattr(opportunity, f"{leg_type}_volume", 100)`. -/
def legVolume (opp : OppLiquidity) (l : SimLeg) : Rat :=
  (opp.volumeOf l.optType).getD 100

/-- `getattr(opportunity, f"{leg_type}_oi", 100)`. -/
def legOi (opp : OppLiquidity) (l : SimLeg) : Rat :=
  (opp.oiOf l.optType).getD 100

/-- `avg_volume = total_volume / leg_count if leg_count > 0 else 0`. -/
def avgVolumeOf (opp : OppLiquidity) (pos : SimPosition) : Rat :=
  if 0 < pos.legs.length then
    (pos.legs.map (legVolume opp)).sum / (pos.legs.length : Rat)
  else 0

/-- `avg_oi = total_oi / leg_count if leg_count > 0 else 0`. -/
def avgOiOf (opp : OppLiquidity) (pos : SimPosition) : Rat :=
  if 0 < pos.legs.length then
    (pos.legs.map (legOi opp)).sum / (pos.legs.length : Rat)
  else 0

/-- Step 3 of the scorer: normalized volume and open interest averaged
and weighted by 15%. -/
def liquidityScoreOf (opp : OppLiquidity) (pos : SimPosition) : Rat :=
  (min (avgVolumeOf opp pos / 100) 1 + min (avgOiOf opp pos / 200) 1) / 2 * (15/100)

/-- Step 4 of the scorer: `iv_score = (iv_rank / 100.0) * 0.10`. -/
def ivScoreOf (ivRank : Rat) : Rat :=
  ivRank / 100 * (10/100)

/-- Step 5 of the scorer: `credit_score = min(credit / 500.0, 1.0) * 0.05`
where `credit = position.premium_collected`. -/
def creditScoreOf (pos : SimPosition) : Rat :=
  min (pos.premiumCollected / 500) 1 * (5/100)

/-- Step 6 of the scorer: `delta_score = 0.05` (simplified constant in
the source). -/
def deltaScoreConst : Rat := 5/100

/-- `OpportunityScorer.calculate_quality_score`: the quality score is
the sum of the six weighted components. -/
def calculateQualityScore (opp : OppLiquidity) (pos : SimPosition)
    (ivRank : Rat) : Rat :=
  rorScoreOf pos + dteScoreOf pos.dteAtEntry + liquidityScoreOf opp pos +
    ivScoreOf ivRank + creditScoreOf pos + deltaScoreConst

/-- C8: for every candidate the scorer sees (nonnegative premium,
nonzero reserved risk, an IV rank in `[0, 100]`, nonnegative liquidity
columns — all true of every candidate the engine scores, which uses
the literal IV rank 70 and scan rows with credit ≥ 0.60), each of the
six components lies in `[0, weight]` for its documented weight
(0.45, 0.20, 0.15, 0.10, 0.05, 0.05) and the total quality score lies
in `[0, 1]`. -/
theorem C8_score_components_bounded (opp : OppLiquidity) (pos : SimPosition)
    (ivRank : Rat)
    (hprem : 0 ≤ pos.premiumCollected)
    (_hrisk : pos.maxRisk ≠ 0)
    (hiv0 : 0 ≤ ivRank) (hiv1 : ivRank ≤ 100)
    (hvol : ∀ t v, opp.volumeOf t = some v → 0 ≤ v)
    (hoi : ∀ t v, opp.oiOf t = some v → 0 ≤ v) :
    (0 ≤ rorScoreOf pos ∧ rorScoreOf pos ≤ 45/100) ∧
    (0 ≤ dteScoreOf pos.dteAtEntry ∧ dteScoreOf pos.dteAtEntry ≤ 20/100) ∧
    (0 ≤ liquidityScoreOf opp pos ∧ liquidityScoreOf opp pos ≤ 15/100) ∧
    (0 ≤ ivScoreOf ivRank ∧ ivScoreOf ivRank ≤ 10/100) ∧
    (0 ≤ creditScoreOf pos ∧ creditScoreOf pos ≤ 5/100) ∧
    (0 ≤ deltaScoreConst ∧ deltaScoreConst ≤ 5/100) ∧
    (0 ≤ calculateQualityScore opp pos ivRank ∧
      calculateQualityScore opp pos ivRank ≤ 1) := by
  have habs : (0 : Rat) ≤ |pos.maxRisk| := abs_nonneg _
  have hror : 0 ≤ rorOf pos := by
    unfold rorOf
    exact mul_nonneg (div_nonneg hprem habs) (by norm_num)
  have h1 : 0 ≤ rorScoreOf pos ∧ rorScoreOf pos ≤ 45/100 := by
    unfold rorScoreOf
    constructor
    · exact mul_nonneg (le_min (div_nonneg hror (by norm_num)) (by norm_num))
        (by norm_num)
    · calc min (rorOf pos / 400) 1 * (45/100) ≤ 1 * (45/100) := by
            have := min_le_right (rorOf pos / 400) 1
            nlinarith
        _ = 45/100 := by norm_num
  have h2 : 0 ≤ dteScoreOf pos.dteAtEntry ∧ dteScoreOf pos.dteAtEntry ≤ 20/100 := by
    unfold dteScoreOf
    split_ifs
    all_goals norm_num
  have hvolSum : 0 ≤ (pos.legs.map (legVolume opp)).sum := by
    apply List.sum_nonneg
    intro x hx
    simp only [List.mem_map] at hx
    obtain ⟨l, _, rfl⟩ := hx
    unfold legVolume
    cases hv : opp.volumeOf l.optType with
    | none => simp
    | some v => simpa using hvol _ v hv
  have hoiSum : 0 ≤ (pos.legs.map (legOi opp)).sum := by
    apply List.sum_nonneg
    intro x hx
    simp only [List.mem_map] at hx
    obtain ⟨l, _, rfl⟩ := hx
    unfold legOi
    cases hv : opp.oiOf l.optType with
    | none => simp
    | some v => simpa using hoi _ v hv
  have havgV : 0 ≤ avgVolumeOf opp pos := by
    unfold avgVolumeOf
    split_ifs
    · exact div_nonneg hvolSum (by positivity)
    · exact le_refl 0
  have havgO : 0 ≤ avgOiOf opp pos := by
    unfold avgOiOf
    split_ifs
    · exact div_nonneg hoiSum (by positivity)
    · exact le_refl 0
  have h3 : 0 ≤ liquidityScoreOf opp pos ∧ liquidityScoreOf opp pos ≤ 15/100 := by
    unfold liquidityScoreOf
    have hv0 : 0 ≤ min (avgVolumeOf opp pos / 100) 1 :=
      le_min (div_nonneg havgV (by norm_num)) (by norm_num)
    have hv1 : min (avgVolumeOf opp pos / 100) 1 ≤ 1 := min_le_right _ _
    have ho0 : 0 ≤ min (avgOiOf opp pos / 200) 1 :=
      le_min (div_nonneg havgO (by norm_num)) (by norm_num)
    have ho1 : min (avgOiOf opp pos / 200) 1 ≤ 1 := min_le_right _ _
    constructor
    · nlinarith
    · nlinarith
  have h4 : 0 ≤ ivScoreOf ivRank ∧ ivScoreOf ivRank ≤ 10/100 := by
    unfold ivScoreOf
    constructor
    · exact mul_nonneg (div_nonneg hiv0 (by norm_num)) (by norm_num)
    · nlinarith
  have h5 : 0 ≤ creditScoreOf pos ∧ creditScoreOf pos ≤ 5/100 := by
    unfold creditScoreOf
    have hc0 : 0 ≤ min (pos.premiumCollected / 500) 1 :=
      le_min (div_nonneg hprem (by norm_num)) (by norm_num)
    have hc1 : min (pos.premiumCollected / 500) 1 ≤ 1 := min_le_right _ _
    constructor
    · nlinarith
    · nlinarith
  have h6 : 0 ≤ deltaScoreConst ∧ deltaScoreConst ≤ 5/100 := by
    unfold deltaScoreConst
    norm_num
  refine ⟨h1, h2, h3, h4, h5, h6, ?_, ?_⟩
  · unfold calculateQualityScore
    linarith [h1.1, h2.1, h3.1, h4.1, h5.1, h6.1]
  · unfold calculateQualityScore
    linarith [h1.2, h2.2, h3.2, h4.2, h5.2, h6.2]

/-- C8 (witness): the bounds theorem applied to a concrete candidate —
an Iron Condor-shaped position (four legs, premium 260, reserved risk
240, 40 DTE) scored with the engine's literal IV rank of 70 and an
opportunity row without liquidity columns. -/
theorem C8_score_components_witness :
    0 ≤ calculateQualityScore ⟨fun _ => none, fun _ => none⟩
        ⟨"SPY", 0, 40, 40,
          [⟨OptType.put, 100, Side.short⟩, ⟨OptType.put, 95, Side.long⟩,
            ⟨OptType.call, 110, Side.short⟩, ⟨OptType.call, 115, Side.long⟩],
          260, 240, 91, 360, PStatus.openPos, none, none, none, none⟩ 70 ∧
      calculateQualityScore ⟨fun _ => none, fun _ => none⟩
        ⟨"SPY", 0, 40, 40,
          [⟨OptType.put, 100, Side.short⟩, ⟨OptType.put, 95, Side.long⟩,
            ⟨OptType.call, 110, Side.short⟩, ⟨OptType.call, 115, Side.long⟩],
          260, 240, 91, 360, PStatus.openPos, none, none, none, none⟩ 70 ≤ 1 :=
  (C8_score_components_bounded _ _ _ (by norm_num) (by norm_num) (by norm_num)
    (by norm_num) (fun t v h => by cases h) (fun t v h => by cases h)).2.2.2.2.2.2

/-! ## Simulation engine (`BacktestEngine`) -/

/-- `BacktestEngine._calculate_expiry_pnl`: accumulate signed per-leg
intrinsic value (`max(0, S−K)` for calls, `max(0, K−S)` for puts,
times the 100 contract multiplier, added for short legs and subtracted
for long legs) and subtract from the collected premium. -/
def calcExpiryPnl (pos : SimPosition) (finalPrice : Rat) : Rat :=
  let totalIntrinsicValue := pos.legs.foldl
    (fun acc leg =>
      let intrinsic :=
        if leg.optType = OptType.call then max 0 (finalPrice - leg.strike)
        else max 0 (leg.strike - finalPrice)
      let intrinsicValue := intrinsic * 100
      if leg.side = Side.short then acc + intrinsicValue else acc - intrinsicValue)
    0
  pos.premiumCollected - totalIntrinsicValue

/-- Spec-side mirror of the settlement value: "the sum of per-leg
intrinsic values (time value zero)", written as a plain sum over the
legs for comparison with the engine's accumulator. -/
def specIntrinsicValue (legs : List SimLeg) (finalPrice : Rat) : Rat :=
  (legs.map (fun leg =>
    let intrinsic :=
      match leg.optType with
      | .call => max 0 (finalPrice - leg.strike)
      | .put => max 0 (leg.strike - finalPrice)
    match leg.side with
    | .short => intrinsic * 100
    | .long => -(intrinsic * 100))).sum

/-- First chain row matching a leg's strike and type
(`available_options[leg_mask].iloc[0]`). -/
def legFirstMatch (available : List OptionRow) (leg : SimLeg) : Option OptionRow :=
  available.find?
    (fun r => decide (r.strike = leg.strike) && decide (r.optType = leg.optType))

/-- A leg row's usable price: `close`, falling back to `vwap` when
`close` is `NaN`, `none` when both are missing. -/
def legPrice (r : OptionRow) : Option Rat :=
  match r.close with
  | some c => some c
  | none => r.vwap

/-- `BacktestEngine._calculate_position_value`: restrict the ticker's
chain to the current date and the position's expiration; price each
leg from its first matching row (skipping legs with no row or no
usable price), summing `±price×100` by side; return the total only if
every leg resolved, else `None`. -/
def calcPositionValue (df : List OptionRow) (pos : SimPosition) (date : Int) :
    Option Rat :=
  let available := df.filter
    (fun r => decide (r.date = date) && decide (r.expiration = pos.expirationDate))
  if available = [] then none
  else
    let legVals := pos.legs.map (fun leg =>
      match legFirstMatch available leg with
      | none => none
      | some r =>
        match legPrice r with
        | none => none
        | some p =>
          some (if leg.side = Side.short then p * 100 else -(p * 100)))
    let found := legVals.filterMap id
    if found.length = pos.legs.length then some found.sum else none

/-- The market environment a simulated day sees: per-ticker loaded
chain data, plus the Black-Scholes fallback valuation
(`_estimate_value_with_model`) as an oracle — its output is an
`Option` value exactly as in the source (`None` when the model is
unavailable or errors); its transcendental internals are irrelevant to
the control-flow claims. -/
structure MarketEnv where
  data : String → List OptionRow
  bsmValue : String → SimPosition → Int → Option Rat

/-- `data_loader.get_underlying_price(ticker, date)`. -/
def underlyingPriceOf (env : MarketEnv) (ticker : String) (date : Int) :
    Option Rat :=
  getUnderlyingPrice (env.data ticker) date

/-- Python truthiness on an optional price: `if underlying_price:`
treats both `None` and `0.0` as missing. -/
def truthy (x : Option Rat) : Option Rat :=
  match x with
  | some p => if p = 0 then none else some p
  | none => none

/-- The complete mark-to-model valuation chain of
`_manage_all_positions`: exact market quotes for every leg first, then
the Black-Scholes fallback. -/
def valuationOf (env : MarketEnv) (pos : SimPosition) (date : Int) : Option Rat :=
  match calcPositionValue (env.data pos.ticker) pos date with
  | some v => some v
  | none => env.bsmValue pos.ticker pos date

/-- The per-position body of `_manage_all_positions`: expiry
settlement first (only when an underlying price is available),
otherwise mark-to-model valuation with profit-target / stop-loss
checks; Boolean result is membership in `positions_to_close`. -/
def managePositionStep (env : MarketEnv) (date : Int) (pos : SimPosition) :
    SimPosition × Bool :=
  if pos.expirationDate ≤ date then
    match truthy (underlyingPriceOf env pos.ticker date) with
    | some p =>
      let pnl := calcExpiryPnl pos p
      ({ pos with
          pnl := some pnl
          exitDate := some date
          daysHeld := some (date - pos.entryDate)
          status := if 0 < pnl then PStatus.expiredProfitable
            else PStatus.expiredLoss }, true)
    | none => (pos, false)
  else
    match truthy (underlyingPriceOf env pos.ticker date) with
    | none => (pos, false)
    | some _ =>
      match valuationOf env pos date with
      | none => (pos, false)
      | some v =>
        let pnl := pos.premiumCollected - v
        if pos.profitTarget ≤ pnl then
          ({ pos with
              pnl := some pnl
              exitDate := some date
              exitValue := some v
              daysHeld := some (date - pos.entryDate)
              status := PStatus.closedProfit }, true)
        else if pnl ≤ -pos.stopLoss then
          ({ pos with
              pnl := some pnl
              exitDate := some date
              exitValue := some v
              daysHeld := some (date - pos.entryDate)
              status := PStatus.closedLoss }, true)
        else (pos, false)

/-- Engine state: the cash counter and the open/closed collections. -/
structure EngineState where
  capital : Rat
  positions : List SimPosition
  closedPositions : List SimPosition
deriving DecidableEq, Repr

/-- `BacktestEngine._manage_all_positions`: run the per-position body
over all open positions, then move every position collected in
`positions_to_close` to the closed ledger and return its reserved
`abs(max_risk)` to the cash counter. -/
def manageAllPositions (env : MarketEnv) (date : Int) (st : EngineState) :
    EngineState :=
  let stepped := st.positions.map (managePositionStep env date)
  let toClose := (stepped.filter (fun pr => pr.2)).map (fun pr => pr.1)
  let remaining := (stepped.filter (fun pr => !pr.2)).map (fun pr => pr.1)
  { capital := st.capital + (toClose.map (fun p => |p.maxRisk|)).sum
    positions := remaining
    closedPositions := st.closedPositions ++ toClose }

/-- `BacktestEngine._close_all_remaining_positions`: settle each open
position at intrinsic value as `closed_end` — but only when an
underlying price is available on the final date — then clear the open
collection unconditionally. -/
def closeAllRemaining (env : MarketEnv) (finalDate : Int) (st : EngineState) :
    EngineState :=
  let settled := st.positions.filterMap (fun pos =>
    match truthy (underlyingPriceOf env pos.ticker finalDate) with
    | some p =>
      some { pos with
        pnl := some (calcExpiryPnl pos p)
        exitDate := some finalDate
        daysHeld := some (finalDate - pos.entryDate)
        status := PStatus.closedEnd }
    | none => none)
  { capital := st.capital + (settled.map (fun p => |p.maxRisk|)).sum
    positions := []
    closedPositions := st.closedPositions ++ settled }

/-! ## Candidate admission (`_find_multi_ticker_opportunities`, step 3) -/

/-- `OpportunityCandidate`, reduced to the fields the selection loop
reads. -/
structure Candidate where
  ticker : String
  strategyName : String
  position : SimPosition
  qualityScore : Rat
deriving DecidableEq, Repr

/-- The engine-level configuration fields the admission loop reads. -/
structure EngineConfig where
  maxPositions : Nat
  maxPositionsPerTicker : Nat
  initialCapital : Rat
deriving DecidableEq, Repr

/-- `[p for p in self.positions if p.ticker == candidate.ticker]`. -/
def tickerCount (ps : List SimPosition) (t : String) : Nat :=
  (ps.filter (fun p => p.ticker == t)).length

/-- One iteration of the selection loop: global cap (`break`),
per-ticker cap (`continue`), capital check (`continue`), then
admission with the immediate `max_risk` deduction.  Boolean result is
whether the candidate was admitted. -/
def admitStep (cfg : EngineConfig) (c : Candidate) (ps : List SimPosition)
    (cap : Rat) : (List SimPosition × Rat) × Bool :=
  if cfg.maxPositions ≤ ps.length then ((ps, cap), false)
  else if cfg.maxPositionsPerTicker ≤ tickerCount ps c.ticker then ((ps, cap), false)
  else if cap < |c.position.maxRisk| then ((ps, cap), false)
  else ((ps ++ [c.position], cap - |c.position.maxRisk|), true)

/-- The selection loop over the ranked candidates (the `break` on the
global cap ends the loop; `continue` skips the candidate). -/
def admitLoop (cfg : EngineConfig) :
    List Candidate → List SimPosition → Rat → List SimPosition × Rat
  | [], ps, cap => (ps, cap)
  | c :: rest, ps, cap =>
    if cfg.maxPositions ≤ ps.length then (ps, cap)
    else if cfg.maxPositionsPerTicker ≤ tickerCount ps c.ticker then
      admitLoop cfg rest ps cap
    else if cap < |c.position.maxRisk| then admitLoop cfg rest ps cap
    else admitLoop cfg rest (ps ++ [c.position]) (cap - |c.position.maxRisk|)

/-- Per-candidate admission decisions of the selection loop, in
candidate order (everything after the `break` is not admitted). -/
def admitDecisions (cfg : EngineConfig) :
    List Candidate → List SimPosition → Rat → List Bool
  | [], _, _ => []
  | c :: rest, ps, cap =>
    if cfg.maxPositions ≤ ps.length then false :: admitDecisions cfg rest ps cap
    else if cfg.maxPositionsPerTicker ≤ tickerCount ps c.ticker then
      false :: admitDecisions cfg rest ps cap
    else if cap < |c.position.maxRisk| then false :: admitDecisions cfg rest ps cap
    else true :: admitDecisions cfg rest (ps ++ [c.position])
      (cap - |c.position.maxRisk|)

/-- Stable insertion for the score-descending sort
(`sort(key=..., reverse=True)` is stable among equal scores). -/
def insertByScore (c : Candidate) : List Candidate → List Candidate
  | [] => [c]
  | x :: xs =>
    if x.qualityScore ≤ c.qualityScore then c :: x :: xs
    else x :: insertByScore c xs

/-- Score-descending stable sort of the pooled candidates. -/
def sortByScoreDesc : List Candidate → List Candidate
  | [] => []
  | c :: cs => insertByScore c (sortByScoreDesc cs)

/-- Steps 2–3 of `_find_multi_ticker_opportunities`: rank the pooled
candidates by quality score descending, then run the greedy selection
loop against the engine state. -/
def findOpportunitiesAdmit (cfg : EngineConfig) (cands : List Candidate)
    (st : EngineState) : EngineState :=
  let sorted := sortByScoreDesc cands
  let res := admitLoop cfg sorted st.positions st.capital
  { capital := res.2
    positions := res.1
    closedPositions := st.closedPositions }

/-! ### Engine lemmas -/

/-- The engine's expiry accumulator computes premium minus the
spec-side signed intrinsic sum. -/
theorem calcExpiryPnl_eq_spec (pos : SimPosition) (p : Rat) :
    calcExpiryPnl pos p = pos.premiumCollected - specIntrinsicValue pos.legs p := by
  unfold calcExpiryPnl specIntrinsicValue
  have key : ∀ (legs : List SimLeg) (acc : Rat),
      legs.foldl
        (fun acc leg =>
          let intrinsic :=
            if leg.optType = OptType.call then max 0 (p - leg.strike)
            else max 0 (leg.strike - p)
          let intrinsicValue := intrinsic * 100
          if leg.side = Side.short then acc + intrinsicValue
          else acc - intrinsicValue) acc =
      acc + (legs.map (fun leg =>
        let intrinsic :=
          match leg.optType with
          | .call => max 0 (p - leg.strike)
          | .put => max 0 (leg.strike - p)
        match leg.side with
        | .short => intrinsic * 100
        | .long => -(intrinsic * 100))).sum := by
    intro legs
    induction legs with
    | nil => intro acc; simp
    | cons leg rest ih =>
      intro acc
      simp only [List.foldl_cons, List.map_cons, List.sum_cons, ih]
      cases leg.optType
      all_goals cases hs : leg.side
      all_goals simp_all [Side, SimLeg]
      all_goals ring
  rw [key]
  ring

/-- The per-position body never alters the reserved `max_risk`. -/
theorem managePositionStep_maxRisk (env : MarketEnv) (date : Int)
    (pos : SimPosition) :
    ((managePositionStep env date pos).1).maxRisk = pos.maxRisk := by
  unfold managePositionStep
  dsimp only
  repeat' split
  all_goals rfl

/-- Splitting a Boolean-tagged list by tag preserves the total of any
numeric projection. -/
theorem sum_filter_split (l : List (SimPosition × Bool)) (f : SimPosition → Rat) :
    ((l.filter (fun pr => pr.2)).map (fun pr => f pr.1)).sum +
      ((l.filter (fun pr => !pr.2)).map (fun pr => f pr.1)).sum =
    (l.map (fun pr => f pr.1)).sum := by
  induction l with
  | nil => simp
  | cons x xs ih =>
    cases hx : x.2
    all_goals simp [List.filter_cons, hx]
    all_goals linarith [ih]

/-- The selection loop preserves cash plus reserved risk. -/
theorem admitLoop_invariant (cfg : EngineConfig) (cands : List Candidate)
    (ps : List SimPosition) (cap : Rat) :
    (admitLoop cfg cands ps cap).2 +
      (((admitLoop cfg cands ps cap).1).map (fun p => |p.maxRisk|)).sum =
    cap + (ps.map (fun p => |p.maxRisk|)).sum := by
  induction cands generalizing ps cap with
  | nil => rfl
  | cons c rest ih =>
    unfold admitLoop
    split
    · rfl
    · split
      · exact ih ps cap
      · split
        · exact ih ps cap
        · rw [ih]
          simp [List.map_append, List.sum_append]

/-- Cash counter plus reserved `max_risk` over the open positions. -/
def capitalOpenRiskSum (st : EngineState) : Rat :=
  st.capital + (st.positions.map (fun p => |p.maxRisk|)).sum

/-- Sum of recorded PnL over the closed ledger. -/
def closedPnlSum (st : EngineState) : Rat :=
  (st.closedPositions.map (fun p => p.pnl.getD 0)).sum

/-- Two-row chain for the C1 counterexample run: a near-ATM call (for
the underlying-price estimate) and the put the open position is short,
both priced on day 10 for the day-40 expiration. -/
def c1Chain : List OptionRow :=
  [⟨10, 40, OptType.call, 100, 30, 1/2, none, 70, some 1, none, 100, 200⟩,
   ⟨10, 40, OptType.put, 50, 30, -(1/4), none, 70, some 1, none, 100, 200⟩]

/-- Market environment of the C1 counterexample run. -/
def c1Env : MarketEnv :=
  ⟨fun t => if t = "T" then c1Chain else [], fun _ _ _ => none⟩

/-- The candidate position of the C1 counterexample run: short one
put, premium 200, reserved risk 500, profit target 50. -/
def c1Pos : SimPosition :=
  ⟨"T", 0, 40, 40, [⟨OptType.put, 50, Side.short⟩], 200, 500, 50, 1000,
    PStatus.openPos, none, none, none, none⟩

/-- The state reached by admitting the candidate on top of initial
capital 1000 and then running the day-10 management pass, which closes
the position at its profit target with PnL `+100`. -/
def c1FinalState : EngineState :=
  manageAllPositions c1Env 10
    (findOpportunitiesAdmit ⟨5, 2, 1000⟩ [⟨"T", "iron_condor", c1Pos, 1/2⟩]
      ⟨1000, [], []⟩)

theorem c1_admit_eval :
    findOpportunitiesAdmit ⟨5, 2, 1000⟩ [⟨"T", "iron_condor", c1Pos, 1/2⟩]
      ⟨1000, [], []⟩ = ⟨500, [c1Pos], []⟩ := by
  simp [findOpportunitiesAdmit, sortByScoreDesc, insertByScore, admitLoop,
    tickerCount, List.filter, c1Pos]
  norm_num

theorem c1_price_eval : getUnderlyingPrice c1Chain 10 = some 100 := by
  simp [getUnderlyingPrice, estimateUnderlyingPrice, c1Chain, List.filter]
  norm_num [medianQ, sortAsc, insertAsc]

theorem c1_value_eval : calcPositionValue c1Chain c1Pos 10 = some 100 := by
  simp [calcPositionValue, c1Chain, c1Pos, legFirstMatch, legPrice, List.filter,
    List.find?, List.filterMap]

theorem c1_step_eval :
    managePositionStep c1Env 10 c1Pos =
      (⟨"T", 0, 40, 40, [⟨OptType.put, 50, Side.short⟩], 200, 500, 50, 1000,
        PStatus.closedProfit, some 100, some 10, some 100, some 10⟩, true) := by
  rw [managePositionStep]
  rw [if_neg (by norm_num [c1Pos])]
  have hdata : c1Env.data c1Pos.ticker = c1Chain := by
    simp [c1Env, c1Pos]
  rw [show underlyingPriceOf c1Env c1Pos.ticker 10 = some 100 by
    rw [underlyingPriceOf, hdata, c1_price_eval]]
  rw [show valuationOf c1Env c1Pos 10 = some 100 by
    rw [valuationOf, hdata, c1_value_eval]]
  simp [truthy, c1Pos]
  norm_num

/-- C1 (counterexample): one admitted position that closes at its
profit target with PnL `+100`.  On closure the cash counter only gets
the reserved `max_risk` back — realized PnL is never credited to cash
— so `cash + Σ max_risk(open)` stays at the initial capital `1000`,
while the claimed right-hand side `initial + Σ closed PnL` is `1100`. -/
theorem C1_capital_invariant_counterexample :
    capitalOpenRiskSum c1FinalState ≠ 1000 + closedPnlSum c1FinalState := by
  have hfinal : c1FinalState =
      ⟨1000, [], [⟨"T", 0, 40, 40, [⟨OptType.put, 50, Side.short⟩], 200, 500, 50,
        1000, PStatus.closedProfit, some 100, some 10, some 100, some 10⟩]⟩ := by
    rw [c1FinalState, c1_admit_eval]
    simp [manageAllPositions, c1_step_eval, List.filter]
    norm_num
  rw [hfinal]
  norm_num [capitalOpenRiskSum, closedPnlSum]

/-- C1 (amended): with PnL never credited to the cash counter, the
quantity conserved by the engine is `cash + Σ |max_risk| of open
positions = initial capital`: it holds at the initial state and is
preserved by every daily position-management pass (each closure
returns exactly the reserved risk) and by every admission pass (each
admission deducts exactly the admitted candidate's reserved risk). -/
theorem C1_capital_invariant (cfg : EngineConfig) (env : MarketEnv) (date : Int)
    (st : EngineState) (cands : List Candidate) (init : Rat)
    (h : capitalOpenRiskSum st = init) :
    capitalOpenRiskSum
      ({ capital := init, positions := [], closedPositions := [] } : EngineState) =
        init ∧
    capitalOpenRiskSum (manageAllPositions env date st) = init ∧
    capitalOpenRiskSum (findOpportunitiesAdmit cfg cands st) = init := by
  refine ⟨by simp [capitalOpenRiskSum], ?_, ?_⟩
  · unfold capitalOpenRiskSum at h ⊢
    unfold manageAllPositions
    have h1 := sum_filter_split (st.positions.map (managePositionStep env date))
      (fun p => |p.maxRisk|)
    have h2 : ((st.positions.map (managePositionStep env date)).map
        (fun pr => |pr.1.maxRisk|)).sum =
        (st.positions.map (fun p => |p.maxRisk|)).sum := by
      rw [List.map_map]
      congr 1
      apply List.map_congr_left
      intro p _
      simp [managePositionStep_maxRisk]
    simp only [List.map_map, Function.comp_def] at h1 h2 ⊢
    linarith [h1, h2, h]
  · unfold capitalOpenRiskSum at h ⊢
    unfold findOpportunitiesAdmit
    have := admitLoop_invariant cfg (sortByScoreDesc cands) st.positions st.capital
    linarith [this, h]

/-- C1 (witness): the amended conservation theorem applied to a fresh
engine state with initial capital 1000 and an empty market. -/
theorem C1_capital_invariant_witness :
    capitalOpenRiskSum (manageAllPositions ⟨fun _ => [], fun _ _ _ => none⟩ 0
        ⟨1000, [], []⟩) = 1000 ∧
      capitalOpenRiskSum (findOpportunitiesAdmit ⟨5, 2, 1000⟩ []
        ⟨1000, [], []⟩) = 1000 :=
  ⟨(C1_capital_invariant ⟨5, 2, 1000⟩ ⟨fun _ => [], fun _ _ _ => none⟩ 0
      ⟨1000, [], []⟩ [] 1000 (by norm_num [capitalOpenRiskSum])).2.1,
   (C1_capital_invariant ⟨5, 2, 1000⟩ ⟨fun _ => [], fun _ _ _ => none⟩ 0
      ⟨1000, [], []⟩ [] 1000 (by norm_num [capitalOpenRiskSum])).2.2⟩

/-- C4: `_close_all_remaining_positions` evaluated at the failing
input — one open position (reserved risk 500) whose ticker has no
chain rows, hence no underlying price, on the final date.  The open
collection is cleared unconditionally, but the position is **not**
moved to the closed ledger and its reserved `max_risk` is **not**
returned to cash: the position is deleted outright, contradicting the
claim (and the function's own stated purpose of closing all remaining
positions). -/
theorem C4_close_all_drops_position :
    closeAllRemaining ⟨fun _ => [], fun _ _ _ => none⟩ 60
        ⟨500,
          [⟨"T", 0, 40, 40, [⟨OptType.put, 50, Side.short⟩], 200, 500, 50, 1000,
            PStatus.openPos, none, none, none, none⟩], []⟩ =
      ⟨500, [], []⟩ := by
  simp [closeAllRemaining, truthy, underlyingPriceOf, getUnderlyingPrice,
    List.filter, List.filterMap]

/-- C3 (counterexample): an expired position (expiration day 40,
current day 50) whose ticker has no chain rows that day: the claim
says it settles at intrinsic value into a terminal expired status, but
the engine skips it entirely — it stays `open` and is not collected
for closing. -/
theorem C3_exit_rules_counterexample :
    managePositionStep ⟨fun _ => [], fun _ _ _ => none⟩ 50
        ⟨"T", 0, 40, 40, [⟨OptType.put, 50, Side.short⟩], 200, 500, 50, 1000,
          PStatus.openPos, none, none, none, none⟩ =
      (⟨"T", 0, 40, 40, [⟨OptType.put, 50, Side.short⟩], 200, 500, 50, 1000,
        PStatus.openPos, none, none, none, none⟩, false) ∧
    ((40 : Int) ≤ 50) := by
  constructor
  · simp [managePositionStep, truthy, underlyingPriceOf, getUnderlyingPrice,
      List.filter]
  · norm_num

/-- C3 (amended): the daily exit rules for an open position, in
evaluation order, with the proviso (forced by the counterexample) that
each arm only fires when an underlying price for the position's ticker
is available that day.  (1) If the current date is on or after
expiration and a price is available, the position settles at
`premium − Σ per-leg signed intrinsic value` and becomes
`expired_profitable`/`expired_loss` by the sign of that PnL.
(2) Without a usable underlying price, nothing happens — whether or
not the position has expired: an expired position with no price stays
open and is retried the next day.  (3) Likewise, when the position is
not yet expired and neither market quotes nor the model fallback
produce a complete valuation, nothing happens and no error is raised
(the step is total).  (4) Otherwise
`PnL = premium − value`; `closed_profit` when `PnL ≥ profit_target`,
else `closed_loss` when `PnL ≤ −stop_loss`, else no transition. -/
theorem C3_exit_rules (env : MarketEnv) (date : Int) (pos : SimPosition) :
    (pos.expirationDate ≤ date →
      ∀ p, truthy (underlyingPriceOf env pos.ticker date) = some p →
        managePositionStep env date pos =
          ({ pos with
              pnl := some (pos.premiumCollected - specIntrinsicValue pos.legs p)
              exitDate := some date
              daysHeld := some (date - pos.entryDate)
              status :=
                if 0 < pos.premiumCollected - specIntrinsicValue pos.legs p then
                  PStatus.expiredProfitable
                else PStatus.expiredLoss }, true)) ∧
    (truthy (underlyingPriceOf env pos.ticker date) = none →
      managePositionStep env date pos = (pos, false)) ∧
    (valuationOf env pos date = none →
      date < pos.expirationDate →
      managePositionStep env date pos = (pos, false)) ∧
    (date < pos.expirationDate →
      ∀ p v, truthy (underlyingPriceOf env pos.ticker date) = some p →
        valuationOf env pos date = some v →
        (pos.profitTarget ≤ pos.premiumCollected - v →
          managePositionStep env date pos =
            ({ pos with
                pnl := some (pos.premiumCollected - v)
                exitDate := some date
                exitValue := some v
                daysHeld := some (date - pos.entryDate)
                status := PStatus.closedProfit }, true)) ∧
        (pos.premiumCollected - v < pos.profitTarget →
          pos.premiumCollected - v ≤ -pos.stopLoss →
          managePositionStep env date pos =
            ({ pos with
                pnl := some (pos.premiumCollected - v)
                exitDate := some date
                exitValue := some v
                daysHeld := some (date - pos.entryDate)
                status := PStatus.closedLoss }, true)) ∧
        (pos.premiumCollected - v < pos.profitTarget →
          -pos.stopLoss < pos.premiumCollected - v →
          managePositionStep env date pos = (pos, false))) := by
  refine ⟨?_, ?_, ?_, ?_⟩
  · intro hexp p hp
    rw [managePositionStep, if_pos hexp, hp]
    dsimp only
    rw [calcExpiryPnl_eq_spec]
  · intro hnone
    rw [managePositionStep]
    split_ifs with hexp
    · rw [hnone]
    · rw [hnone]
  · intro hval hlt
    rw [managePositionStep, if_neg (not_le.mpr hlt)]
    cases hp : truthy (underlyingPriceOf env pos.ticker date) with
    | none => rfl
    | some p => rw [hval]
  · intro hlt p v hp hv
    refine ⟨?_, ?_, ?_⟩
    · intro hpt
      rw [managePositionStep, if_neg (not_le.mpr hlt), hp, hv]
      dsimp only
      rw [if_pos hpt]
    · intro hpt hsl
      rw [managePositionStep, if_neg (not_le.mpr hlt), hp, hv]
      dsimp only
      rw [if_neg (not_le.mpr hpt), if_pos hsl]
    · intro hpt hsl
      rw [managePositionStep, if_neg (not_le.mpr hlt), hp, hv]
      dsimp only
      rw [if_neg (not_le.mpr hpt), if_neg (not_le.mpr hsl)]

/-- Chain for the C3 witness: one near-ATM call row on day 50 giving
underlying-price estimate 100. -/
def c3Chain : List OptionRow :=
  [⟨50, 60, OptType.call, 100, 10, 1/2, none, 70, some 1, none, 100, 200⟩]

/-- Expired short-put position for the C3 witness. -/
def c3Pos : SimPosition :=
  ⟨"T", 0, 40, 40, [⟨OptType.put, 50, Side.short⟩], 200, 500, 50, 1000,
    PStatus.openPos, none, none, none, none⟩

/-- C3 (witness): the amended exit-rules theorem applied on day 50 to
a position that expired on day 40, with an underlying price of 100
available: it settles at intrinsic value as the claim describes. -/
theorem C3_exit_rules_witness :
    managePositionStep ⟨fun _ => c3Chain, fun _ _ _ => none⟩ 50 c3Pos =
      ({ c3Pos with
          pnl := some (c3Pos.premiumCollected -
            specIntrinsicValue c3Pos.legs 100)
          exitDate := some 50
          daysHeld := some (50 - c3Pos.entryDate)
          status :=
            if 0 < c3Pos.premiumCollected - specIntrinsicValue c3Pos.legs 100
            then PStatus.expiredProfitable
            else PStatus.expiredLoss }, true) :=
  (C3_exit_rules ⟨fun _ => c3Chain, fun _ _ _ => none⟩ 50 c3Pos).1
    (by norm_num [c3Pos]) 100
    (by
      simp [truthy, underlyingPriceOf, getUnderlyingPrice, estimateUnderlyingPrice,
        c3Chain, c3Pos, List.filter]
      norm_num [medianQ, sortAsc, insertAsc])

/-! ### Admission-loop lemmas (C2) -/

theorem admitLoop_of_full (cfg : EngineConfig) (cands : List Candidate)
    (ps : List SimPosition) (cap : Rat) (h : cfg.maxPositions ≤ ps.length) :
    admitLoop cfg cands ps cap = (ps, cap) := by
  cases cands with
  | nil => rfl
  | cons c rest =>
    unfold admitLoop
    rw [if_pos h]

theorem admitLoop_cons (cfg : EngineConfig) (c : Candidate)
    (rest : List Candidate) (ps : List SimPosition) (cap : Rat) :
    admitLoop cfg (c :: rest) ps cap =
      admitLoop cfg rest (admitStep cfg c ps cap).1.1
        (admitStep cfg c ps cap).1.2 := by
  conv_lhs => unfold admitLoop
  unfold admitStep
  split_ifs with h1 h2 h3
  · exact (admitLoop_of_full cfg rest ps cap h1).symm
  · rfl
  · rfl
  · rfl

theorem admitDecisions_cons (cfg : EngineConfig) (c : Candidate)
    (rest : List Candidate) (ps : List SimPosition) (cap : Rat) :
    admitDecisions cfg (c :: rest) ps cap =
      (admitStep cfg c ps cap).2 ::
        admitDecisions cfg rest (admitStep cfg c ps cap).1.1
          (admitStep cfg c ps cap).1.2 := by
  conv_lhs => unfold admitDecisions
  unfold admitStep
  split_ifs
  all_goals rfl

theorem admitStep_admitted_iff (cfg : EngineConfig) (c : Candidate)
    (ps : List SimPosition) (cap : Rat) :
    (admitStep cfg c ps cap).2 = true ↔
      (ps.length < cfg.maxPositions ∧
        tickerCount ps c.ticker < cfg.maxPositionsPerTicker ∧
        |c.position.maxRisk| ≤ cap) := by
  unfold admitStep
  split_ifs with h1 h2 h3
  · simp only [Bool.false_eq_true, false_iff]
    rintro ⟨a, -, -⟩
    omega
  · simp only [Bool.false_eq_true, false_iff]
    rintro ⟨-, a, -⟩
    omega
  · simp only [Bool.false_eq_true, false_iff]
    rintro ⟨-, -, a⟩
    exact absurd a (not_le.mpr h3)
  · simp only [true_iff]
    exact ⟨by omega, by omega, not_lt.mp h3⟩

theorem admitStep_state (cfg : EngineConfig) (c : Candidate)
    (ps : List SimPosition) (cap : Rat) :
    (admitStep cfg c ps cap).1 =
      if (admitStep cfg c ps cap).2 then
        (ps ++ [c.position], cap - |c.position.maxRisk|)
      else (ps, cap) := by
  unfold admitStep
  by_cases h1 : cfg.maxPositions ≤ ps.length
  · simp [h1]
  · by_cases h2 : cfg.maxPositionsPerTicker ≤ tickerCount ps c.ticker
    · simp [h1, h2]
    · by_cases h3 : cap < |c.position.maxRisk|
      · simp [h1, h2, h3]
      · simp [h1, h2, h3]

theorem admit_trace (cfg : EngineConfig) (cands : List Candidate)
    (ps : List SimPosition) (cap : Rat) (i : Nat) (hi : i < cands.length) :
    (admitDecisions cfg cands ps cap).getD i false =
      (admitStep cfg (cands.get ⟨i, hi⟩)
        (admitLoop cfg (cands.take i) ps cap).1
        (admitLoop cfg (cands.take i) ps cap).2).2 ∧
    admitLoop cfg (cands.take (i+1)) ps cap =
      (admitStep cfg (cands.get ⟨i, hi⟩)
        (admitLoop cfg (cands.take i) ps cap).1
        (admitLoop cfg (cands.take i) ps cap).2).1 := by
  induction cands generalizing i ps cap with
  | nil => cases hi
  | cons c rest ih =>
    cases i with
    | zero =>
      constructor
      · rw [admitDecisions_cons]
        rfl
      · show admitLoop cfg (List.take 1 (c :: rest)) ps cap = _
        rw [List.take_succ_cons, List.take_zero, admitLoop_cons]
        rfl
    | succ j =>
      have hj : j < rest.length := by simpa using hi
      have e1 : (admitDecisions cfg (c :: rest) ps cap).getD (j+1) false =
          (admitDecisions cfg rest (admitStep cfg c ps cap).1.1
            (admitStep cfg c ps cap).1.2).getD j false := by
        rw [admitDecisions_cons]
        rfl
      have e2 : ∀ k, admitLoop cfg (List.take (k+1) (c :: rest)) ps cap =
          admitLoop cfg (List.take k rest) (admitStep cfg c ps cap).1.1
            (admitStep cfg c ps cap).1.2 := by
        intro k
        rw [List.take_succ_cons, admitLoop_cons]
      have e3 : (c :: rest).get ⟨j+1, hi⟩ = rest.get ⟨j, hj⟩ := rfl
      rw [e1, e2, e2, e3]
      exact ih (admitStep cfg c ps cap).1.1 (admitStep cfg c ps cap).1.2 j hj

/-! ### Ranking lemmas (C2) -/

theorem insertByScore_mem (c : Candidate) (l : List Candidate) (y : Candidate)
    (h : y ∈ insertByScore c l) : y = c ∨ y ∈ l := by
  induction l with
  | nil => simpa [insertByScore] using h
  | cons x xs ih =>
    unfold insertByScore at h
    split_ifs at h with hle
    · rcases List.mem_cons.mp h with rfl | h2
      · exact Or.inl rfl
      · exact Or.inr h2
    · rcases List.mem_cons.mp h with rfl | h2
      · exact Or.inr (List.mem_cons_self _ _)
      · rcases ih h2 with rfl | h3
        · exact Or.inl rfl
        · exact Or.inr (List.mem_cons_of_mem _ h3)

theorem insertByScore_pairwise (c : Candidate) (l : List Candidate)
    (h : l.Pairwise (fun a b => b.qualityScore ≤ a.qualityScore)) :
    (insertByScore c l).Pairwise (fun a b => b.qualityScore ≤ a.qualityScore) := by
  induction l with
  | nil => simp [insertByScore]
  | cons x xs ih =>
    unfold insertByScore
    rcases List.pairwise_cons.mp h with ⟨hx, hxs⟩
    split_ifs with hle
    · refine List.pairwise_cons.mpr ⟨?_, h⟩
      intro y hy
      rcases List.mem_cons.mp hy with rfl | hy2
      · exact hle
      · exact le_trans (hx y hy2) hle
    · refine List.pairwise_cons.mpr ⟨?_, ih hxs⟩
      intro y hy
      rcases insertByScore_mem c xs y hy with rfl | hy2
      · exact le_of_lt (not_le.mp hle)
      · exact hx y hy2

theorem insertByScore_perm (c : Candidate) (l : List Candidate) :
    (insertByScore c l).Perm (c :: l) := by
  induction l with
  | nil => simp [insertByScore]
  | cons x xs ih =>
    unfold insertByScore
    split_ifs with hle
    · exact List.Perm.refl _
    · exact (ih.cons x).trans (List.Perm.swap c x xs)

theorem sortByScoreDesc_pairwise (l : List Candidate) :
    (sortByScoreDesc l).Pairwise (fun a b => b.qualityScore ≤ a.qualityScore) := by
  induction l with
  | nil => simp [sortByScoreDesc]
  | cons c cs ih => exact insertByScore_pairwise c _ ih

theorem sortByScoreDesc_perm (l : List Candidate) :
    (sortByScoreDesc l).Perm l := by
  induction l with
  | nil => exact List.Perm.refl _
  | cons c cs ih => exact (insertByScore_perm c _).trans (ih.cons c)

/-- Placeholder candidate for positional lookups (never admitted by
the theorems; the index is always in range). -/
def dummyCandidate : Candidate :=
  ⟨"", "", ⟨"", 0, 0, 0, [], 0, 0, 0, 0, PStatus.openPos, none, none, none, none⟩, 0⟩

/-- C2: daily candidate selection.  (a) The pooled candidates are
ranked by quality score descending (a permutation of the pool,
pairwise score-descending); (b) `_find_multi_ticker_opportunities`
runs the greedy selection loop on that ranked list against the current
open positions and cash; (c) the `i`-th ranked candidate is admitted
exactly when, at its turn, the global open-position cap is unfilled,
its ticker's per-ticker cap is unfilled, and available capital covers
its `max_risk`; (d) an admission immediately appends the position and
deducts its `max_risk` from available capital, while a rejected
candidate leaves the state untouched (and is never reconsidered: the
state after the first `i+1` candidates depends only on the decisions
already made). -/
theorem C2_greedy_admission (cfg : EngineConfig) (pool : List Candidate)
    (st : EngineState) (i : Nat)
    (hi : i < (sortByScoreDesc pool).length) :
    (sortByScoreDesc pool).Pairwise (fun a b => b.qualityScore ≤ a.qualityScore) ∧
    (sortByScoreDesc pool).Perm pool ∧
    findOpportunitiesAdmit cfg pool st =
      { capital := (admitLoop cfg (sortByScoreDesc pool) st.positions st.capital).2
        positions := (admitLoop cfg (sortByScoreDesc pool) st.positions st.capital).1
        closedPositions := st.closedPositions } ∧
    ((admitDecisions cfg (sortByScoreDesc pool) st.positions st.capital).getD i
        false = true ↔
      ((admitLoop cfg ((sortByScoreDesc pool).take i) st.positions
          st.capital).1.length < cfg.maxPositions ∧
        tickerCount
            (admitLoop cfg ((sortByScoreDesc pool).take i) st.positions
              st.capital).1
            ((sortByScoreDesc pool).getD i dummyCandidate).ticker <
          cfg.maxPositionsPerTicker ∧
        |((sortByScoreDesc pool).getD i dummyCandidate).position.maxRisk| ≤
          (admitLoop cfg ((sortByScoreDesc pool).take i) st.positions
            st.capital).2)) ∧
    admitLoop cfg ((sortByScoreDesc pool).take (i+1)) st.positions st.capital =
      (if (admitDecisions cfg (sortByScoreDesc pool) st.positions
            st.capital).getD i false then
        ((admitLoop cfg ((sortByScoreDesc pool).take i) st.positions
            st.capital).1 ++
          [((sortByScoreDesc pool).getD i dummyCandidate).position],
          (admitLoop cfg ((sortByScoreDesc pool).take i) st.positions
            st.capital).2 -
            |((sortByScoreDesc pool).getD i dummyCandidate).position.maxRisk|)
      else admitLoop cfg ((sortByScoreDesc pool).take i) st.positions
        st.capital) := by
  have hget : (sortByScoreDesc pool).getD i dummyCandidate =
      (sortByScoreDesc pool).get ⟨i, hi⟩ :=
    List.getD_eq_get _ _ hi
  obtain ⟨hdec, hstate⟩ :=
    admit_trace cfg (sortByScoreDesc pool) st.positions st.capital i hi
  refine ⟨sortByScoreDesc_pairwise pool, sortByScoreDesc_perm pool, rfl, ?_, ?_⟩
  · rw [hdec, hget]
    exact admitStep_admitted_iff cfg _ _ _
  · rw [hstate, hdec, hget, admitStep_state]

/-- Positions of the C2 scenario candidates (each reserving 600 of
capital). -/
def c2PosA : SimPosition :=
  ⟨"A", 0, 40, 40, [⟨OptType.put, 50, Side.short⟩], 100, 600, 50, 1000,
    PStatus.openPos, none, none, none, none⟩

def c2PosB : SimPosition :=
  ⟨"B", 0, 40, 40, [⟨OptType.put, 50, Side.short⟩], 100, 600, 50, 1000,
    PStatus.openPos, none, none, none, none⟩

/-- Same-day candidate with quality score 0.8. -/
def c2CandHigh : Candidate := ⟨"A", "iron_condor", c2PosA, 8/10⟩

/-- Same-day candidate with quality score 0.6. -/
def c2CandLow : Candidate := ⟨"B", "iron_condor", c2PosB, 6/10⟩

theorem c2_sort_eval :
    sortByScoreDesc [c2CandLow, c2CandHigh] = [c2CandHigh, c2CandLow] := by
  simp [sortByScoreDesc, insertByScore, c2CandHigh, c2CandLow]
  norm_num

/-- C2 (witness): the spec's scenario — two same-day candidates with
scores 0.8 and 0.6 and capital 1000 that covers only one 600-risk
admission.  The characterization theorem yields: the 0.8 candidate is
admitted (decision 0 is `true`) and the 0.6 candidate is rejected for
lack of capital (decision 1 is `false`). -/
theorem C2_greedy_admission_witness :
    (admitDecisions ⟨5, 2, 1000⟩ (sortByScoreDesc [c2CandLow, c2CandHigh])
      [] 1000).getD 0 false = true ∧
    (admitDecisions ⟨5, 2, 1000⟩ (sortByScoreDesc [c2CandLow, c2CandHigh])
      [] 1000).getD 1 false = false := by
  have hlen : (sortByScoreDesc [c2CandLow, c2CandHigh]).length = 2 :=
    (sortByScoreDesc_perm _).length_eq
  have h0 : (0:Nat) < (sortByScoreDesc [c2CandLow, c2CandHigh]).length := by omega
  have h1 : (1:Nat) < (sortByScoreDesc [c2CandLow, c2CandHigh]).length := by omega
  constructor
  · apply ((C2_greedy_admission ⟨5, 2, 1000⟩ [c2CandLow, c2CandHigh]
      ⟨1000, [], []⟩ 0 h0).2.2.2.1).mpr
    refine ⟨?_, ?_, ?_⟩
    · simp [admitLoop]
    · simp [admitLoop, tickerCount]
    · simp only [List.take_zero, admitLoop, c2_sort_eval]
      norm_num [c2CandHigh, c2PosA]
  · have hiff := (C2_greedy_admission ⟨5, 2, 1000⟩ [c2CandLow, c2CandHigh]
      ⟨1000, [], []⟩ 1 h1).2.2.2.1
    have hstate1 : admitLoop ⟨5, 2, 1000⟩
        ((sortByScoreDesc [c2CandLow, c2CandHigh]).take 1) [] 1000 =
        ([c2PosA], 400) := by
      rw [c2_sort_eval]
      simp [admitLoop, tickerCount, c2CandHigh]
      norm_num [c2PosA]
    cases hdec : (admitDecisions ⟨5, 2, 1000⟩
        (sortByScoreDesc [c2CandLow, c2CandHigh]) [] 1000).getD 1 false with
    | false => rfl
    | true =>
      exfalso
      have hcond := hiff.mp hdec
      rw [hstate1, c2_sort_eval] at hcond
      have h600 := hcond.2.2
      norm_num [c2CandLow, c2PosB] at h600

/-! ## Option-selection filters (`filters.py`) and the Iron Condor
scan (`iron_condor.py`) -/

/-- Python `int()` truncation toward zero. -/
def pyInt (q : Rat) : Int :=
  if 0 ≤ q then ⌊q⌋ else ⌈q⌉

/-- `LiquidityFilter` parameters. -/
structure LiquidityFilter where
  minVolume : Int
  minOpenInterest : Int
  maxBidAskSpreadPct : Rat
deriving DecidableEq, Repr

/-- `LiquidityFilter.filter`: the loaded chain has no `bid`/`ask`
columns, so `bid_ask_spread_pct` is the 5.0 default for every row;
volume and open interest must meet their floors. -/
def LiquidityFilter.filter (f : LiquidityFilter) (df : List OptionRow) :
    List OptionRow :=
  df.filter (fun r =>
    decide ((f.minVolume : Rat) ≤ r.volume) &&
    decide ((f.minOpenInterest : Rat) ≤ r.oi) &&
    decide ((5 : Rat) ≤ f.maxBidAskSpreadPct))

/-- `LiquidityFilter.adjust_for_dte`: tightened floors for short DTE
(`int()`-truncated multiples) and a lowered spread ceiling. -/
def LiquidityFilter.adjustForDte (f : LiquidityFilter) (dte : Int) :
    LiquidityFilter :=
  if dte ≤ 21 then
    ⟨pyInt ((f.minVolume : Rat) * (15/10)), pyInt ((f.minOpenInterest : Rat) * (15/10)),
      f.maxBidAskSpreadPct * (7/10)⟩
  else if dte ≤ 35 then
    ⟨pyInt ((f.minVolume : Rat) * (12/10)), pyInt ((f.minOpenInterest : Rat) * (12/10)),
      f.maxBidAskSpreadPct * (85/100)⟩
  else f

/-- `VolatilityFilter` parameters (each criterion optional). -/
structure VolatilityFilter where
  minIv : Option Rat
  minIvRank : Option Rat
  minIvPercentile : Option Rat
deriving DecidableEq, Repr

/-- `VolatilityFilter.filter`: the chain has `iv` (possibly `NaN`,
which fails the comparison) and — after the scan's annotation — an
`iv_rank` column; there is no `iv_percentile` column, so that
criterion never filters. -/
def VolatilityFilter.filter (f : VolatilityFilter) (df : List OptionRow) :
    List OptionRow :=
  df.filter (fun r =>
    (match f.minIv with
     | some m =>
       match r.iv with
       | some v => decide (m ≤ v)
       | none => false
     | none => true) &&
    (match f.minIvRank with
     | some m => decide (m ≤ r.ivRank)
     | none => true))

/-- `VolatilityFilter.adjust_for_dte`: for short DTE the thresholds
are raised; note the Python truthiness guard (`if self.min_iv_rank`)
maps a threshold of `0` to `None` as well. -/
def VolatilityFilter.adjustForDte (f : VolatilityFilter) (dte : Int) :
    VolatilityFilter :=
  if dte ≤ 21 then
    ⟨(match f.minIv with
      | some m => if m = 0 then none else some (m * (12/10))
      | none => none),
     (match f.minIvRank with
      | some m => if m = 0 then none else some (max (m + 10) 70)
      | none => none),
     (match f.minIvPercentile with
      | some m => if m = 0 then none else some (max (m + 10) 70)
      | none => none)⟩
  else f

/-- `DTEFilter`. -/
structure DTEFilter where
  dteRange : Int × Int
deriving DecidableEq, Repr

/-- `DTEFilter.filter` (the `dte` column is always present). -/
def DTEFilter.filter (f : DTEFilter) (df : List OptionRow) : List OptionRow :=
  df.filter (fun r =>
    decide (f.dteRange.1 ≤ r.dte) && decide (r.dte ≤ f.dteRange.2))

/-- `DeltaFilter`. -/
structure DeltaFilter where
  deltaRange : Rat × Rat
  optionType : Option OptType
deriving DecidableEq, Repr

/-- `DeltaFilter.filter`: restrict to the leg's option type, then keep
absolute delta inside the band. -/
def DeltaFilter.filter (f : DeltaFilter) (df : List OptionRow) : List OptionRow :=
  let typed : List OptionRow :=
    match f.optionType with
    | some t => df.filter (fun r => decide (r.optType = t))
    | none => df
  typed.filter (fun r =>
    decide (f.deltaRange.1 ≤ |r.delta|) && decide (|r.delta| ≤ f.deltaRange.2))

/-- `OptionSelector`: the four filters applied in sequence. -/
structure OptionSelector where
  liquidity : LiquidityFilter
  volatility : VolatilityFilter
  dte : DTEFilter
  delta : Option DeltaFilter
deriving DecidableEq, Repr

/-- `OptionSelector.select`: optionally DTE-adjust the liquidity and
volatility filters by the median DTE of the input, then filter in the
fixed order DTE → liquidity → volatility → delta, with early exit on
an empty intermediate result. -/
def OptionSelector.select (s : OptionSelector) (df : List OptionRow)
    (adjustForDte : Bool) : List OptionRow :=
  if df = [] then df
  else
    let adjusted :=
      if adjustForDte then
        let avgDte := pyInt (medianQ (df.map (fun r : OptionRow => (r.dte : Rat))))
        (s.liquidity.adjustForDte avgDte, s.volatility.adjustForDte avgDte)
      else (s.liquidity, s.volatility)
    let r1 := s.dte.filter df
    if r1 = [] then r1
    else
      let r2 := adjusted.1.filter r1
      if r2 = [] then r2
      else
        let r3 := adjusted.2.filter r2
        if r3 = [] then r3
        else
          match s.delta with
          | some d => d.filter r3
          | none => r3

/-- The `IronCondor` strategy parameters the scan reads (as configured
by the engine: DTE 15–60, short delta 0.16–0.25, long delta 0.05–0.10,
min IV rank 60, spread width 5, volume ≥ 10, open interest ≥ 50). -/
structure ICParams where
  dteRange : Int × Int
  shortDeltaRange : Rat × Rat
  longDeltaRange : Rat × Rat
  minIvRank : Rat
  minVolume : Int
  minOpenInterest : Int
  spreadWidth : Rat
deriving DecidableEq, Repr

/-- `IronCondor._create_selector`. -/
def mkSelector (p : ICParams) (t : OptType) (side : Side) : OptionSelector :=
  ⟨⟨p.minVolume, p.minOpenInterest, 10⟩,
   ⟨none, some p.minIvRank, none⟩,
   ⟨p.dteRange⟩,
   some ⟨(match side with
          | Side.short => p.shortDeltaRange
          | Side.long => p.longDeltaRange), some t⟩⟩

/-- `NaN`-propagating arithmetic on optional prices, mirroring float
`NaN` propagation in the source's credit computations. -/
def osub (a b : Option Rat) : Option Rat :=
  match a, b with
  | some x, some y => some (x - y)
  | _, _ => none

def oadd (a b : Option Rat) : Option Rat :=
  match a, b with
  | some x, some y => some (x + y)
  | _, _ => none

/-- `pandas` comparison semantics on a possibly-`NaN` value: a `NaN`
comparison is `False`. -/
def oge (x : Option Rat) (c : Rat) : Bool :=
  match x with
  | some v => decide (c ≤ v)
  | none => false

/-- One row of the DataFrame `IronCondor.scan` returns. -/
structure ICRow where
  date : Int
  expiration : Int
  dte : Int
  underlyingPrice : Option Rat
  putShortStrike : Rat
  putShortDelta : Rat
  putShortPrice : Option Rat
  putLongStrike : Rat
  putLongDelta : Rat
  putLongPrice : Option Rat
  putSpreadCredit : Option Rat
  callShortStrike : Rat
  callShortDelta : Rat
  callShortPrice : Option Rat
  callLongStrike : Rat
  callLongDelta : Rat
  callLongPrice : Option Rat
  callSpreadCredit : Option Rat
  totalCredit : Option Rat
  maxRisk : Option Rat
  returnOnRisk : Option Rat
  netDelta : Rat
  putIv : Option Rat
  callIv : Option Rat
  avgIv : Option Rat
deriving DecidableEq, Repr

/-- The condor dict built from one (put short, put long, call short,
call long) combination. -/
def mkICRow (p : ICParams) (und : Option Rat)
    (putShort putLong callShort callLong : OptionRow) : ICRow :=
  let putSpreadCredit := osub putShort.close putLong.close
  let callSpreadCredit := osub callShort.close callLong.close
  let totalCredit := oadd putSpreadCredit callSpreadCredit
  { date := putShort.date
    expiration := putShort.expiration
    dte := putShort.dte
    underlyingPrice := und
    putShortStrike := putShort.strike
    putShortDelta := putShort.delta
    putShortPrice := putShort.close
    putLongStrike := putLong.strike
    putLongDelta := putLong.delta
    putLongPrice := putLong.close
    putSpreadCredit := putSpreadCredit
    callShortStrike := callShort.strike
    callShortDelta := callShort.delta
    callShortPrice := callShort.close
    callLongStrike := callLong.strike
    callLongDelta := callLong.delta
    callLongPrice := callLong.close
    callSpreadCredit := callSpreadCredit
    totalCredit := totalCredit
    maxRisk := totalCredit.map (fun c => (p.spreadWidth - c) * 100)
    returnOnRisk :=
      if 0 < p.spreadWidth then totalCredit.map (fun c => c / p.spreadWidth * 100)
      else some 0
    netDelta := putShort.delta - putLong.delta + callShort.delta - callLong.delta
    putIv := putShort.iv
    callIv := callShort.iv
    avgIv := (oadd putShort.iv callShort.iv).map (fun s => s / 2) }

/-- `pandas` `unique` on the `date` column: first-occurrence order. -/
def uniqueDates (l : List OptionRow) : List Int :=
  l.foldl (fun acc r => if r.date ∈ acc then acc else acc ++ [r.date]) []

/-- The condor-building double loop of `IronCondor.scan`: for each
scan date of the short puts, pair each short put with the first chain
row at strike `short − width` of type put on the same date (the lookup
is over the whole annotated chain and does **not** constrain the
expiration), and likewise each short call with the first row at strike
`short + width`; skip combinations with no matching long row. -/
def buildCondors (p : ICParams) (und : Option Rat)
    (annotated putShorts callShorts : List OptionRow) : List ICRow :=
  (uniqueDates putShorts).flatMap (fun d =>
    let datePuts := putShorts.filter (fun r => decide (r.date = d))
    let dateCalls := callShorts.filter (fun r => decide (r.date = d))
    if datePuts = [] ∨ dateCalls = [] then []
    else
      datePuts.flatMap (fun putShort =>
        match annotated.find? (fun r =>
          decide (r.strike = putShort.strike - p.spreadWidth) &&
          decide (r.optType = OptType.put) && decide (r.date = d)) with
        | none => []
        | some putLong =>
          dateCalls.flatMap (fun callShort =>
            match annotated.find? (fun r =>
              decide (r.strike = callShort.strike + p.spreadWidth) &&
              decide (r.optType = OptType.call) && decide (r.date = d)) with
            | none => []
            | some callLong =>
              [mkICRow p und putShort putLong callShort callLong])))

/-- Stable insertion for the return-on-risk-descending ranking. -/
def insertByRor (c : ICRow) : List ICRow → List ICRow
  | [] => [c]
  | x :: xs =>
    if x.returnOnRisk.getD 0 ≤ c.returnOnRisk.getD 0 then c :: x :: xs
    else x :: insertByRor c xs

/-- `sort_values('return_on_risk', ascending=False)`. -/
def sortByRorDesc : List ICRow → List ICRow
  | [] => []
  | c :: cs => insertByRor c (sortByRorDesc cs)

/-- `IronCondor.scan`: annotate the chain with the market-wide IV
rank, select short puts and short calls through the DTE-adjusted
filter pipeline, build all condor combinations, discard candidates
below the `0.60` total-credit floor, and rank by return-on-risk
descending. -/
def scanIronCondors (p : ICParams) (chain : List OptionRow)
    (marketIvRank : Rat) (marketUnderlying : Option Rat) : List ICRow :=
  let annotated := chain.map (fun r => { r with ivRank := marketIvRank })
  let putShorts := (mkSelector p OptType.put Side.short).select
    (annotated.filter (fun r => decide (r.optType = OptType.put))) true
  if putShorts = [] then []
  else
    let callShorts := (mkSelector p OptType.call Side.short).select
      (annotated.filter (fun r => decide (r.optType = OptType.call))) true
    if callShorts = [] then []
    else
      let condors := buildCondors p marketUnderlying annotated putShorts callShorts
      if condors = [] then []
      else
        sortByRorDesc (condors.filter (fun r => oge r.totalCredit (60/100)))

/-! ### Scan lemmas (C6) -/

theorem insertByRor_mem (c : ICRow) (l : List ICRow) (y : ICRow)
    (h : y ∈ insertByRor c l) : y = c ∨ y ∈ l := by
  induction l with
  | nil => simpa [insertByRor] using h
  | cons x xs ih =>
    unfold insertByRor at h
    split_ifs at h with hle
    · rcases List.mem_cons.mp h with rfl | h2
      · exact Or.inl rfl
      · exact Or.inr h2
    · rcases List.mem_cons.mp h with rfl | h2
      · exact Or.inr (List.mem_cons_self _ _)
      · rcases ih h2 with rfl | h3
        · exact Or.inl rfl
        · exact Or.inr (List.mem_cons_of_mem _ h3)

theorem insertByRor_pairwise (c : ICRow) (l : List ICRow)
    (h : l.Pairwise (fun a b => b.returnOnRisk.getD 0 ≤ a.returnOnRisk.getD 0)) :
    (insertByRor c l).Pairwise
      (fun a b => b.returnOnRisk.getD 0 ≤ a.returnOnRisk.getD 0) := by
  induction l with
  | nil => simp [insertByRor]
  | cons x xs ih =>
    unfold insertByRor
    rcases List.pairwise_cons.mp h with ⟨hx, hxs⟩
    split_ifs with hle
    · refine List.pairwise_cons.mpr ⟨?_, h⟩
      intro y hy
      rcases List.mem_cons.mp hy with rfl | hy2
      · exact hle
      · exact le_trans (hx y hy2) hle
    · refine List.pairwise_cons.mpr ⟨?_, ih hxs⟩
      intro y hy
      rcases insertByRor_mem c xs y hy with rfl | hy2
      · exact le_of_lt (not_le.mp hle)
      · exact hx y hy2

theorem insertByRor_perm (c : ICRow) (l : List ICRow) :
    (insertByRor c l).Perm (c :: l) := by
  induction l with
  | nil => simp [insertByRor]
  | cons x xs ih =>
    unfold insertByRor
    split_ifs with hle
    · exact List.Perm.refl _
    · exact (ih.cons x).trans (List.Perm.swap c x xs)

theorem sortByRorDesc_pairwise (l : List ICRow) :
    (sortByRorDesc l).Pairwise
      (fun a b => b.returnOnRisk.getD 0 ≤ a.returnOnRisk.getD 0) := by
  induction l with
  | nil => simp [sortByRorDesc]
  | cons c cs ih => exact insertByRor_pairwise c _ ih

theorem sortByRorDesc_perm (l : List ICRow) : (sortByRorDesc l).Perm l := by
  induction l with
  | nil => exact List.Perm.refl _
  | cons c cs ih => exact (insertByRor_perm c _).trans (ih.cons c)

/-- Every condor the building loop produces pairs the long legs at
exactly `spread_width` strikes beyond the shorts, on the same scan
date, and computes the recorded credit and `max_risk` from the four
leg prices. -/
theorem buildCondors_fields (p : ICParams) (und : Option Rat)
    (annotated putShorts callShorts : List OptionRow) (r : ICRow)
    (hr : r ∈ buildCondors p und annotated putShorts callShorts) :
    r.putLongStrike = r.putShortStrike - p.spreadWidth ∧
    r.callLongStrike = r.callShortStrike + p.spreadWidth ∧
    r.totalCredit =
      oadd (osub r.putShortPrice r.putLongPrice)
        (osub r.callShortPrice r.callLongPrice) ∧
    r.maxRisk = r.totalCredit.map (fun c => (p.spreadWidth - c) * 100) := by
  unfold buildCondors at hr
  rw [List.mem_flatMap] at hr
  obtain ⟨d, -, hr⟩ := hr
  dsimp only at hr
  split_ifs at hr with hcase
  · cases hr
  · rw [List.mem_flatMap] at hr
    obtain ⟨putShort, -, hr⟩ := hr
    cases hfp : List.find? (fun row =>
        decide (row.strike = putShort.strike - p.spreadWidth) &&
        decide (row.optType = OptType.put) && decide (row.date = d)) annotated with
    | none => rw [hfp] at hr; cases hr
    | some putLong =>
      rw [hfp] at hr
      rw [List.mem_flatMap] at hr
      obtain ⟨callShort, -, hr⟩ := hr
      cases hfc : List.find? (fun row =>
          decide (row.strike = callShort.strike + p.spreadWidth) &&
          decide (row.optType = OptType.call) && decide (row.date = d)) annotated with
      | none => rw [hfc] at hr; cases hr
      | some callLong =>
        rw [hfc] at hr
        rcases List.mem_singleton.mp hr with rfl
        have hp := List.find?_some hfp
        have hc := List.find?_some hfc
        simp only [Bool.and_eq_true, decide_eq_true_eq] at hp hc
        refine ⟨?_, ?_, rfl, rfl⟩
        · exact hp.1.1
        · exact hc.1.1

/-- The full scan output is ranked by return-on-risk descending. -/
theorem scanIronCondors_pairwise (p : ICParams) (chain : List OptionRow)
    (ivRank : Rat) (und : Option Rat) :
    (scanIronCondors p chain ivRank und).Pairwise
      (fun a b => b.returnOnRisk.getD 0 ≤ a.returnOnRisk.getD 0) := by
  unfold scanIronCondors
  dsimp only
  split_ifs
  · exact List.Pairwise.nil
  · exact List.Pairwise.nil
  · exact List.Pairwise.nil
  · exact sortByRorDesc_pairwise _

/-- C6 (amended): every row the Iron Condor scan returns pairs each
short leg with a long leg exactly `spread_width` strikes further
out-of-the-money at the same scan date (the first matching chain row,
regardless of its expiration — the source's long-leg lookup does not
constrain the expiration); has
`max_risk = spread_width×100 − total_credit×100`; has a total credit
of at least the 0.60 floor; and the returned rows are ordered by
return-on-risk descending. -/
theorem C6_iron_condor_scan (p : ICParams) (chain : List OptionRow)
    (ivRank : Rat) (und : Option Rat) (r : ICRow)
    (hr : r ∈ scanIronCondors p chain ivRank und) :
    (∃ c, r.totalCredit = some c ∧ 60/100 ≤ c ∧
      r.maxRisk = some (p.spreadWidth * 100 - c * 100)) ∧
    r.putLongStrike = r.putShortStrike - p.spreadWidth ∧
    r.callLongStrike = r.callShortStrike + p.spreadWidth ∧
    (scanIronCondors p chain ivRank und).Pairwise
      (fun a b => b.returnOnRisk.getD 0 ≤ a.returnOnRisk.getD 0) := by
  refine ?_
  have hpair := scanIronCondors_pairwise p chain ivRank und
  unfold scanIronCondors at hr
  dsimp only at hr
  split_ifs at hr with h1 h2 h3
  · cases hr
  · cases hr
  · cases hr
  · rw [(sortByRorDesc_perm _).mem_iff, List.mem_filter] at hr
    obtain ⟨hmem, hcred⟩ := hr
    obtain ⟨hps, hcs, htc, hmr⟩ := buildCondors_fields _ _ _ _ _ _ hmem
    unfold oge at hcred
    refine ⟨?_, hps, hcs, hpair⟩
    cases htotal : r.totalCredit with
    | none => rw [htotal] at hcred; cases hcred
    | some c =>
      rw [htotal] at hcred
      refine ⟨c, rfl, by simpa using hcred, ?_⟩
      rw [hmr, htotal]
      simp only [Option.map_some']
      congr 1
      ring

/-- The Iron Condor parameters as the engine instantiates the
strategy. -/
def icEngineParams : ICParams :=
  ⟨(15, 60), (16/100, 25/100), (5/100, 10/100), 60, 10, 50, 5⟩

/-- Chain for the C6 counterexample: a qualifying short put (strike
100, 40 DTE, expiring day 40), the only strike-95 put — expiring day
12, a *different* expiration —, a qualifying short call (strike 110)
and the strike-115 long call, both expiring day 40. -/
def c6Chain : List OptionRow :=
  [⟨0, 40, OptType.put, 100, 40, 2/10, some (1/4), 0, some 2, none, 100, 200⟩,
   ⟨0, 12, OptType.put, 95, 12, 8/100, some (1/4), 0, some (1/2), none, 100, 200⟩,
   ⟨0, 40, OptType.call, 110, 40, 2/10, some (1/4), 0, some (3/2), none, 100, 200⟩,
   ⟨0, 40, OptType.call, 115, 40, 7/100, some (1/4), 0, some (2/5), none, 100, 200⟩]

/-- The single condor the scan builds on `c6Chain`: its long put is
the day-12 strike-95 row, while the candidate's recorded expiration is
day 40. -/
def c6Expected : ICRow :=
  ⟨0, 40, 40, some 100, 100, 2/10, some 2, 95, 8/100, some (1/2), some (3/2),
   110, 2/10, some (3/2), 115, 7/100, some (2/5), some (11/10), some (13/5),
   some 240, some 52, 1/4, some (1/4), some (1/4), some (1/4)⟩

/-- `c6Chain` rows after the scan's IV-rank annotation. -/
def c6P100 : OptionRow :=
  ⟨0, 40, OptType.put, 100, 40, 2/10, some (1/4), 70, some 2, none, 100, 200⟩
def c6P95 : OptionRow :=
  ⟨0, 12, OptType.put, 95, 12, 8/100, some (1/4), 70, some (1/2), none, 100, 200⟩
def c6C110 : OptionRow :=
  ⟨0, 40, OptType.call, 110, 40, 2/10, some (1/4), 70, some (3/2), none, 100, 200⟩
def c6C115 : OptionRow :=
  ⟨0, 40, OptType.call, 115, 40, 7/100, some (1/4), 70, some (2/5), none, 100, 200⟩

theorem c6_ann_eval :
    c6Chain.map (fun r => { r with ivRank := (70:Rat) }) =
      [c6P100, c6P95, c6C110, c6C115] := by
  simp [c6Chain, c6P100, c6P95, c6C110, c6C115]

theorem c6_putsub_eval :
    List.filter (fun r => decide (r.optType = OptType.put))
      [c6P100, c6P95, c6C110, c6C115] = [c6P100, c6P95] := by
  simp [List.filter, c6P100, c6P95, c6C110, c6C115]

theorem c6_callsub_eval :
    List.filter (fun r => decide (r.optType = OptType.call))
      [c6P100, c6P95, c6C110, c6C115] = [c6C110, c6C115] := by
  simp [List.filter, c6P100, c6P95, c6C110, c6C115]

set_option maxHeartbeats 800000 in
theorem c6_putsel_eval :
    (mkSelector icEngineParams OptType.put Side.short).select [c6P100, c6P95]
      true = [c6P100] := by
  have hmap : List.map (fun r : OptionRow => (r.dte : Rat)) [c6P100, c6P95] =
      [40, 12] := by
    simp [c6P100, c6P95]
  have hsort : sortAsc [(40:Rat), 12] = [12, 40] := by
    norm_num [sortAsc, insertAsc]
  have hmed : pyInt (medianQ (List.map (fun r : OptionRow => (r.dte : Rat))
      [c6P100, c6P95])) = 26 := by
    rw [hmap]
    unfold medianQ
    rw [hsort]
    norm_num [pyInt, List.getD]
  simp only [mkSelector, OptionSelector.select, icEngineParams, hmed]
  norm_num [LiquidityFilter.adjustForDte, VolatilityFilter.adjustForDte,
    DTEFilter.filter, LiquidityFilter.filter, VolatilityFilter.filter,
    DeltaFilter.filter, List.filter, pyInt, c6P100, c6P95, abs_of_nonneg]
  try simp
  try norm_num [abs_of_nonneg, List.filter]
  try simp

set_option maxHeartbeats 800000 in
theorem c6_callsel_eval :
    (mkSelector icEngineParams OptType.call Side.short).select [c6C110, c6C115]
      true = [c6C110] := by
  have hmap : List.map (fun r : OptionRow => (r.dte : Rat)) [c6C110, c6C115] =
      [40, 40] := by
    simp [c6C110, c6C115]
  have hsort : sortAsc [(40:Rat), 40] = [40, 40] := by
    norm_num [sortAsc, insertAsc]
  have hmed : pyInt (medianQ (List.map (fun r : OptionRow => (r.dte : Rat))
      [c6C110, c6C115])) = 40 := by
    rw [hmap]
    unfold medianQ
    rw [hsort]
    norm_num [pyInt, List.getD]
  simp only [mkSelector, OptionSelector.select, icEngineParams, hmed]
  norm_num [LiquidityFilter.adjustForDte, VolatilityFilter.adjustForDte,
    DTEFilter.filter, LiquidityFilter.filter, VolatilityFilter.filter,
    DeltaFilter.filter, List.filter, pyInt, c6C110, c6C115, abs_of_nonneg]
  try simp
  try norm_num [abs_of_nonneg, List.filter]
  try simp

set_option maxHeartbeats 800000 in
theorem c6_build_eval :
    buildCondors icEngineParams (some 100) [c6P100, c6P95, c6C110, c6C115]
      [c6P100] [c6C110] = [c6Expected] := by
  simp [buildCondors, uniqueDates, List.filter, List.find?, mkICRow, osub, oadd,
    icEngineParams, c6P100, c6P95, c6C110, c6C115, c6Expected]
  norm_num

set_option maxHeartbeats 800000 in
theorem c6_scan_eval :
    scanIronCondors icEngineParams c6Chain 70 (some 100) = [c6Expected] := by
  unfold scanIronCondors
  simp only [c6_ann_eval, c6_putsub_eval, c6_callsub_eval, c6_putsel_eval,
    c6_callsel_eval, c6_build_eval]
  norm_num [oge, c6Expected, List.filter, sortByRorDesc, insertByRor]

/-- C6 (counterexample): on `c6Chain` the scan returns exactly one
condor, whose recorded expiration is day 40 and whose long put leg is
the strike-95 row priced 0.50 — but the chain has **no** strike-95 put
expiring on day 40: the matched long leg is the day-12 put, because
the source's long-leg lookup matches only strike, type and scan date,
not the expiration.  This falsifies the claim that each long leg sits
at the same expiration as its short leg. -/
theorem C6_iron_condor_counterexample :
    scanIronCondors icEngineParams c6Chain 70 (some 100) = [c6Expected] ∧
    c6Expected.expiration = 40 ∧
    c6Expected.putLongStrike = 95 ∧
    c6Expected.putLongPrice = some (1/2) ∧
    c6Chain.filter (fun row =>
      decide (row.optType = OptType.put) && decide (row.strike = (95:Rat)) &&
        decide (row.expiration = (40:Int))) = [] := by
  refine ⟨c6_scan_eval, rfl, rfl, rfl, ?_⟩
  simp [c6Chain, List.filter]

/-- C6 (witness): the amended scan theorem applied to the concrete
run on `c6Chain`: the single returned condor satisfies the credit
floor, the `max_risk` identity, and the `±spread_width` strike
pairing. -/
theorem C6_iron_condor_scan_witness :
    (∃ c, c6Expected.totalCredit = some c ∧ 60/100 ≤ c ∧
      c6Expected.maxRisk =
        some (icEngineParams.spreadWidth * 100 - c * 100)) ∧
    c6Expected.putLongStrike =
      c6Expected.putShortStrike - icEngineParams.spreadWidth ∧
    c6Expected.callLongStrike =
      c6Expected.callShortStrike + icEngineParams.spreadWidth ∧
    (scanIronCondors icEngineParams c6Chain 70 (some 100)).Pairwise
      (fun a b => b.returnOnRisk.getD 0 ≤ a.returnOnRisk.getD 0) :=
  C6_iron_condor_scan icEngineParams c6Chain 70 (some 100) c6Expected
    (by rw [c6_scan_eval]; exact List.mem_singleton_self _)

/-! ## Black-Scholes pricing model (`quantitative/black_scholes.py`,
`quantitative/utils.py`), over `ℝ` with the standard normal CDF
defined by the Gaussian integral (`scipy.stats.norm.cdf`/`pdf`). -/

open MeasureTheory

/-- `scipy.stats.norm.pdf`: the standard normal density. -/
noncomputable def normPdf (x : ℝ) : ℝ :=
  Real.exp (-(x ^ 2 / 2)) / Real.sqrt (2 * Real.pi)

/-- `scipy.stats.norm.cdf`: the standard normal distribution function. -/
noncomputable def normCdf (x : ℝ) : ℝ :=
  ∫ t in Set.Iic x, normPdf t

theorem normPdf_neg (x : ℝ) : normPdf (-x) = normPdf x := by
  unfold normPdf
  rw [neg_sq]

theorem normPdf_eq (x : ℝ) :
    normPdf x = Real.exp (-(1/2) * x ^ 2) / Real.sqrt (2 * Real.pi) := by
  unfold normPdf
  ring_nf

theorem integrable_normPdf : Integrable normPdf := by
  have h := integrable_exp_neg_mul_sq (b := 1/2) (by norm_num)
  have h2 := h.div_const (Real.sqrt (2 * Real.pi))
  refine h2.congr ?_
  filter_upwards with x
  rw [normPdf_eq]

theorem integral_normPdf : (∫ x : ℝ, normPdf x) = 1 := by
  have : (∫ x : ℝ, normPdf x) =
      (∫ x : ℝ, Real.exp (-(1/2) * x ^ 2)) / Real.sqrt (2 * Real.pi) := by
    rw [← integral_div]
    congr 1
    funext x
    rw [normPdf_eq]
  rw [this, integral_gaussian]
  rw [show Real.pi / (1/2) = 2 * Real.pi by ring]
  rw [div_self]
  positivity

theorem normCdf_neg (x : ℝ) : normCdf (-x) = ∫ t in Set.Ioi x, normPdf t := by
  unfold normCdf
  have h1 : (∫ t in Set.Iic (-x), normPdf t) =
      ∫ t in Set.Iic (-x), normPdf (-t) := by
    congr 1
    funext t
    rw [normPdf_neg]
  rw [h1, integral_comp_neg_Iic, neg_neg]

theorem normCdf_add_neg (x : ℝ) : normCdf x + normCdf (-x) = 1 := by
  rw [normCdf_neg]
  unfold normCdf
  rw [intervalIntegral.integral_Iic_add_Ioi integrable_normPdf.integrableOn
    integrable_normPdf.integrableOn]
  exact integral_normPdf

/-- `validate_inputs`: spot, strike, time and volatility strictly
positive, rate within `[-1, 1]` (violations raise `ValueError`). -/
def ValidInputs (S K T r sigma : ℝ) : Prop :=
  0 < S ∧ 0 < K ∧ 0 < T ∧ 0 < sigma ∧ -1 ≤ r ∧ r ≤ 1

/-- `calculate_d1_d2`, first component. -/
noncomputable def calculate_d1 (S K T r sigma : ℝ) : ℝ :=
  (Real.log (S / K) + (r + sigma ^ 2 / 2) * T) / (sigma * Real.sqrt T)

/-- `calculate_d1_d2`, second component. -/
noncomputable def calculate_d2 (S K T r sigma : ℝ) : ℝ :=
  calculate_d1 S K T r sigma - sigma * Real.sqrt T

/-- `black_scholes_price`: `S·N(d1) − K·e^(−rT)·N(d2)` for a call,
`K·e^(−rT)·N(−d2) − S·N(−d1)` for a put. -/
noncomputable def black_scholes_price (S K T r sigma : ℝ) (t : OptType) : ℝ :=
  let d1 := calculate_d1 S K T r sigma
  let d2 := calculate_d2 S K T r sigma
  let discount := Real.exp (-r * T)
  match t with
  | OptType.call => S * normCdf d1 - K * discount * normCdf d2
  | OptType.put => K * discount * normCdf (-d2) - S * normCdf (-d1)

/-- C7: put–call parity.  For all valid pricing inputs the call price
minus the put price equals `S − K·e^(−rT)` exactly (so in particular
to within `1e-6`), because `N(x) + N(−x) = 1` for the standard normal
CDF. -/
theorem C7_put_call_parity (S K T r sigma : ℝ)
    (_hS : 0 < S) (_hK : 0 < K) (_hT : 0 < T) (_hsigma : 0 < sigma)
    (_hr1 : -1 ≤ r) (_hr2 : r ≤ 1) :
    |black_scholes_price S K T r sigma OptType.call -
        black_scholes_price S K T r sigma OptType.put -
        (S - K * Real.exp (-r * T))| ≤ 1/1000000 := by
  have h1 := normCdf_add_neg (calculate_d1 S K T r sigma)
  have h2 := normCdf_add_neg (calculate_d2 S K T r sigma)
  have hzero : black_scholes_price S K T r sigma OptType.call -
      black_scholes_price S K T r sigma OptType.put -
      (S - K * Real.exp (-r * T)) = 0 := by
    unfold black_scholes_price
    dsimp only
    linear_combination S * h1 - K * Real.exp (-r * T) * h2
  rw [hzero]
  norm_num

/-- C7 (witness): parity at the concrete valid input
`S = K = 1, T = 1, r = 0, σ = 1`. -/
theorem C7_put_call_parity_witness :
    |black_scholes_price 1 1 1 0 1 OptType.call -
        black_scholes_price 1 1 1 0 1 OptType.put -
        (1 - 1 * Real.exp (-0 * 1))| ≤ 1/1000000 :=
  C7_put_call_parity 1 1 1 0 1 (by norm_num) (by norm_num) (by norm_num)
    (by norm_num) (by norm_num) (by norm_num)

/-- One side (call or put) of the dict `calculate_greeks` returns. -/
structure GreeksOut where
  delta : ℝ
  gamma : ℝ
  vega : ℝ
  theta : ℝ
  rho : ℝ

/-- `calculate_greeks`: the call and put first-order sensitivities.
Gamma and vega are computed once and shared by both sides; the put
delta is computed as `delta_call − 1`. -/
noncomputable def calculate_greeks (S K T r sigma : ℝ) :
    GreeksOut × GreeksOut :=
  let d1 := calculate_d1 S K T r sigma
  let d2 := calculate_d2 S K T r sigma
  let sqrt_T := Real.sqrt T
  let discount_factor := Real.exp (-r * T)
  let pdf_d1 := normPdf d1
  let delta_call := normCdf d1
  let delta_put := delta_call - 1
  let gamma := pdf_d1 / (S * sigma * sqrt_T)
  let vega := S * pdf_d1 * sqrt_T / 100
  let theta_common := -(S * pdf_d1 * sigma) / (2 * sqrt_T)
  let theta_call := (theta_common - r * K * discount_factor * normCdf d2) / 365
  let theta_put := (theta_common + r * K * discount_factor * normCdf (-d2)) / 365
  let rho_call := K * T * discount_factor * normCdf d2 / 100
  let rho_put := -(K * T * discount_factor * normCdf (-d2)) / 100
  (⟨delta_call, gamma, vega, theta_call, rho_call⟩,
   ⟨delta_put, gamma, vega, theta_put, rho_put⟩)

/-- C10: for every valid pricing input, the greeks calculator returns
the same gamma for call and put, the same vega for call and put, and a
put delta exactly equal to the call delta minus 1. -/
theorem C10_greeks_call_put_relations (S K T r sigma : ℝ)
    (_hvalid : ValidInputs S K T r sigma) :
    (calculate_greeks S K T r sigma).1.gamma =
      (calculate_greeks S K T r sigma).2.gamma ∧
    (calculate_greeks S K T r sigma).1.vega =
      (calculate_greeks S K T r sigma).2.vega ∧
    (calculate_greeks S K T r sigma).2.delta =
      (calculate_greeks S K T r sigma).1.delta - 1 :=
  ⟨rfl, rfl, rfl⟩

/-- C10 (witness): the call/put greek relations at the concrete valid
input `S = K = 1, T = 1, r = 0, σ = 1`. -/
theorem C10_greeks_witness :
    (calculate_greeks 1 1 1 0 1).1.gamma = (calculate_greeks 1 1 1 0 1).2.gamma ∧
    (calculate_greeks 1 1 1 0 1).1.vega = (calculate_greeks 1 1 1 0 1).2.vega ∧
    (calculate_greeks 1 1 1 0 1).2.delta =
      (calculate_greeks 1 1 1 0 1).1.delta - 1 :=
  C10_greeks_call_put_relations 1 1 1 0 1
    ⟨by norm_num, by norm_num, by norm_num, by norm_num, by norm_num, by norm_num⟩

end AlgoOptions
